import Mathlib

/-!
Verification of the kvault pooled-capital accounting engine.

Shallow embedding of `programs/kvault/src` (state in `state.rs`, operations in
`operations/vault_operations.rs` and `operations/vault_config_operations.rs`).

The on-chain code computes with `Fraction`, kamino-lending's unsigned 128-bit
fixed-point type with 60 fractional bits (U68F60).  We embed a `Fraction` as its
raw scaled bits, a natural number: the fraction with bits `b` has value
`b / 2^60`.  `u64` amounts are embedded as `Nat`; the one place where a `u64`
subtraction can wrap (the crank-fund carve-out in `deposit`) is modelled with an
explicit `arithmeticAbort` outcome, as are the `unwrap`/division-by-zero panics
on the withdraw paths.  Saturating operations on `Nat` coincide with `Nat`
truncated subtraction.  Fallible operations return `Except VaultError`.
-/

namespace KVault

/-- The fixed-point scale of kamino-lending's `Fraction` type (60 fractional bits). -/
def F : Nat := 2 ^ 60

/-- `Fraction::from(n)` for an integer token amount `n`. -/
def fracOfNat (n : Nat) : Nat := n * F

/-- Ceiling division on `Nat`. -/
def ceilDiv (a b : Nat) : Nat := (a + b - 1) / b

/-- `Fraction::to_floor()`: integer part of a fraction. -/
def toFloor (a : Nat) : Nat := a / F

/-- `Fraction::to_ceil()`: ceiling of a fraction. -/
def toCeil (a : Nat) : Nat := ceilDiv a F

/-- `Fraction::frac()`: the fractional part, as fraction bits. -/
def fracPart (a : Nat) : Nat := a % F

/-- `Fraction::floor()`: the fraction rounded down to an integer, still as a fraction. -/
def floorFrac (a : Nat) : Nat := a / F * F

/-- `Fraction` multiplication (bits): the product truncated to the fixed-point grid. -/
def fracMul (a b : Nat) : Nat := a * b / F

/-- `FractionExtra::full_mul_int_ratio(a, num, den)`: `a * num / den` with a wide
intermediate, floored on the fixed-point grid (source name has the ratio suffix). -/
def fullMulIntDiv (a num den : Nat) : Nat := a * num / den

/-- `FractionExtra::full_mul_int_ratio_ceil(a, num, den)`: same with ceiling rounding. -/
def fullMulIntDivCeil (a num den : Nat) : Nat := ceilDiv (a * num) den

/-- `FractionExtra::mul_int_ratio(a, num, den)` used by `refresh_target_allocations`:
same floored multiply-divide on the bits. -/
def mulIntDiv (a num den : Nat) : Nat := a * num / den

/-- `Fraction::from_bps(bps)`: `bps / 10000` on the fixed-point grid. -/
def fromBps (bps : Nat) : Nat := bps * F / 10000

/-- `SECONDS_PER_YEAR.ceil()` from `utils/consts.rs` (`365.242199` days, ceiled). -/
def SECONDS_PER_YEAR_CEIL : Nat := 31556926

/-- `MAX_MGMT_FEE_BPS` from `utils/consts.rs`. -/
def MAX_MGMT_FEE_BPS : Nat := 1000

/-- `FULL_BPS` (10000), the cap checked for the performance fee. -/
def FULL_BPS : Nat := 10000

/-- `u64::MAX`, used as the unbounded unallocated-tokens cap. -/
def U64MAX : Nat := 2 ^ 64 - 1

/-- One slot of the vault's allocation table (`VaultAllocation` in `state.rs`).
`reserve` is the reserve identity (Pubkey embedded as `Nat`, `0` = empty sentinel).
Fields not read by any operation under proof (ctoken vault, bump, paddings) are omitted. -/
structure VaultAllocation where
  reserve : Nat
  target_allocation_weight : Nat
  token_allocation_cap : Nat
  ctoken_allocation : Nat
  last_invest_slot : Nat
  token_target_allocation_sf : Nat
deriving Repr, DecidableEq

/-- The vault ledger (`VaultState` in `state.rs`); `_sf` fields hold `Fraction` bits.
Identity/admin Pubkey fields and paddings, which no operation under proof reads,
are omitted. -/
structure VaultState where
  token_available : Nat
  shares_issued : Nat
  available_crank_funds : Nat
  unallocated_weight : Nat
  performance_fee_bps : Nat
  management_fee_bps : Nat
  last_fee_charge_timestamp : Nat
  prev_aum_sf : Nat
  pending_fees_sf : Nat
  vault_allocation_strategy : List VaultAllocation
  min_deposit_amount : Nat
  min_withdraw_amount : Nat
  min_invest_amount : Nat
  min_invest_delay_slots : Nat
  crank_fund_fee_per_reserve : Nat
  cumulative_earned_interest_sf : Nat
  cumulative_mgmt_fees_sf : Nat
  cumulative_perf_fees_sf : Nat
  unallocated_tokens_cap : Nat
deriving Repr, DecidableEq

/-- One entry of the computed invested structure (`common::InvestedReserve`). -/
structure InvestedReserve where
  reserve : Nat
  liquidity_amount : Nat
  ctoken_amount : Nat
  target_weight : Nat
deriving Repr, DecidableEq

/-- `common::Invested`: per-reserve invested liquidity (positional, placeholders for
empty slots) plus the total. `liquidity_amount`/`total` are `Fraction` bits. -/
structure Invested where
  allocations : List InvestedReserve
  total : Nat
deriving Repr, DecidableEq

/-- An externally refreshed reserve snapshot, the boundary interface of §6 of the
spec: its identity, a staleness flag for the current slot, and the
liquidity-to-collateral exchange rate as `Fraction` bits (collateral per liquidity). -/
structure ReserveSnap where
  key : Nat
  stale : Bool
  rate : Nat
deriving Repr, DecidableEq

/-- The error outcomes of the embedded operations (`KaminoVaultError` plus two
distinguished abort outcomes: `arithmeticAbort` for the unchecked `u64` underflow
in `deposit`, `unwrapAbort` for `unwrap`/division-by-zero panics). -/
inductive VaultError where
  | aumBelowPendingFees
  | vaultAUMZero
  | depositAmountBelowMinimum
  | depositAmountsZeroShares
  | cannotWithdrawZeroShares
  | withdrawResultsInZeroShares
  | withdrawAmountBelowMinimum
  | reserveNotPartOfAllocations
  | cannotFindReserveInAllocations
  | reserveNotProvidedInTheAccounts
  | reserveAccountAndKeyMismatch
  | reserveIsStale
  | managementFeeGreaterThanMaxAllowed
  | bpsValueTooBig
  | arithmeticAbort
  | unwrapAbort
deriving Repr, DecidableEq

/-- `VaultState::compute_aum`: `available + invested_total - pending_fees`, failing
when the pending fees exceed the holdings. -/
def compute_aum (v : VaultState) (invested_total : Nat) : Except VaultError Nat :=
  if fracOfNat v.token_available + invested_total < v.pending_fees_sf then
    .error .aumBelowPendingFees
  else
    .ok (fracOfNat v.token_available + invested_total - v.pending_fees_sf)

/-- `charge_fees` from `vault_operations.rs` (lines 530-596).  On the first call
(`last_fee_charge_timestamp == 0`) only the timestamp is recorded.  Otherwise the
management and performance charges are computed, the cumulative counters advance
(saturating adds on `u128`, embedded as plain `Nat` addition), and
`pending_fees`/`prev_aum`/`last_fee_charge_timestamp` are updated.  The negative-AUM
error of `compute_aum` is swallowed by `unwrap_or(Fraction::ZERO)`. -/
def charge_fees (v : VaultState) (invested : Invested) (timestamp : Nat) :
    Except VaultError VaultState :=
  if v.last_fee_charge_timestamp = 0 then
    .ok { v with last_fee_charge_timestamp := timestamp }
  else
    let seconds_passed := timestamp - v.last_fee_charge_timestamp
    let new_aum := ((compute_aum v invested.total).toOption).getD 0
    let prev_aum := v.prev_aum_sf
    let mgmt_charge :=
      if seconds_passed = 0 then 0
      else
        let mgmt_fee_yearly := fromBps v.management_fee_bps
        let mgmt_fee := mgmt_fee_yearly * seconds_passed / SECONDS_PER_YEAR_CEIL
        fracMul prev_aum mgmt_fee
    let earned_interest := new_aum - prev_aum
    let perf_charge := fracMul (fromBps v.performance_fee_bps) earned_interest
    let new_fees := min (mgmt_charge + perf_charge) new_aum
    .ok { v with
      cumulative_mgmt_fees_sf := v.cumulative_mgmt_fees_sf + mgmt_charge,
      cumulative_perf_fees_sf := v.cumulative_perf_fees_sf + perf_charge,
      cumulative_earned_interest_sf := v.cumulative_earned_interest_sf + earned_interest,
      pending_fees_sf := v.pending_fees_sf + new_fees,
      prev_aum_sf := new_aum - new_fees,
      last_fee_charge_timestamp := timestamp }

/-- The clamped AUM used by `charge_fees`: `compute_aum` with the negative-AUM error
replaced by zero; equals `available + invested - pending` with truncated subtraction. -/
def new_aum_value (v : VaultState) (invested_total : Nat) : Nat :=
  fracOfNat v.token_available + invested_total - v.pending_fees_sf

/-- Spec-side management charge (§4.2): `prev_aum * (management_fee_bps/10000) *
elapsed / seconds_per_year`, on the fixed-point grid the code computes on. -/
def mgmt_charge_spec (prev_aum mgmt_bps elapsed : Nat) : Nat :=
  fracMul prev_aum (fromBps mgmt_bps * elapsed / SECONDS_PER_YEAR_CEIL)

/-- Spec-side performance charge (§4.2): `max(0, new_aum - prev_aum) *
(performance_fee_bps/10000)`, on the fixed-point grid. -/
def perf_charge_spec (prev_aum new_aum perf_bps : Nat) : Nat :=
  fracMul (fromBps perf_bps) (new_aum - prev_aum)

/-- Spec-side total new fees (§4.2): `min(mgmt_charge + perf_charge, new_aum)`. -/
def new_fees_spec (prev_aum new_aum mgmt_bps perf_bps elapsed : Nat) : Nat :=
  min (mgmt_charge_spec prev_aum mgmt_bps elapsed + perf_charge_spec prev_aum new_aum perf_bps)
    new_aum

/-- The vault-config fields whose update logic is under proof
(`VaultConfigField` in `vault_config_operations.rs`). -/
inductive VaultConfigField where
  | performanceFeeBps
  | managementFeeBps
deriving Repr, DecidableEq

/-- `update_vault_config` from `vault_config_operations.rs` for the fee fields; the
argument is the Borsh-decoded `u64` value. -/
def update_vault_config (v : VaultState) (entry : VaultConfigField) (value : Nat) :
    Except VaultError VaultState :=
  match entry with
  | .performanceFeeBps =>
    if FULL_BPS < value then .error .bpsValueTooBig
    else .ok { v with performance_fee_bps := value }
  | .managementFeeBps =>
    if MAX_MGMT_FEE_BPS < value then .error .managementFeeGreaterThanMaxAllowed
    else .ok { v with management_fee_bps := value }

theorem F_pos : 0 < F := by decide

theorem fracMul_zero (a : Nat) : fracMul a 0 = 0 := by
  simp [fracMul]

theorem fracMul_zero_left (a : Nat) : fracMul 0 a = 0 := by
  simp [fracMul]

/-- `charge_fees` always succeeds; helper lemma giving the result explicitly. -/
theorem charge_fees_isOk (v : VaultState) (invested : Invested) (t : Nat) :
    ∃ v', charge_fees v invested t = .ok v' := by
  unfold charge_fees
  split <;> exact ⟨_, rfl⟩

/-- The clamped AUM is a truncated subtraction. -/
theorem new_aum_eq (v : VaultState) (it : Nat) :
    ((compute_aum v it).toOption).getD 0 = new_aum_value v it := by
  unfold compute_aum new_aum_value
  split
  · next h => simp [Except.toOption, Nat.sub_eq_zero_of_le (Nat.le_of_lt h)]
  · simp [Except.toOption]

/-- An all-zero vault record, the base for the concrete instances used below. -/
def baseVault : VaultState :=
  { token_available := 0, shares_issued := 0, available_crank_funds := 0,
    unallocated_weight := 0, performance_fee_bps := 0, management_fee_bps := 0,
    last_fee_charge_timestamp := 0, prev_aum_sf := 0, pending_fees_sf := 0,
    vault_allocation_strategy := [], min_deposit_amount := 0, min_withdraw_amount := 0,
    min_invest_amount := 0, min_invest_delay_slots := 0, crank_fund_fee_per_reserve := 0,
    cumulative_earned_interest_sf := 0, cumulative_mgmt_fees_sf := 0,
    cumulative_perf_fees_sf := 0, unallocated_tokens_cap := 0 }

/-- An empty invested structure (no live reserves). -/
def emptyInvested : Invested := ⟨[], 0⟩

/-- C2: on a vault with `last_fee_charge_time ≠ 0`, `charge_fees` at time `t` with
elapsed `t - last` (saturating) charges `new_fees = min(mgmt_charge + perf_charge,
new_aum)` with the management charge `prev_aum * (management_fee_bps/10000) *
elapsed / seconds_per_year` and the performance charge
`max(0, new_aum - prev_aum) * (performance_fee_bps/10000)` (both on the code's
fixed-point grid), yielding `pending_fees' = pending_fees + new_fees`,
`prev_aum' = new_aum - new_fees` and `last_fee_charge_time' = t`; on the first call
(`last_fee_charge_time == 0`) only the timestamp is recorded. -/
theorem C2_charge_fees_formulas (v : VaultState) (invested : Invested) (t : Nat) :
    (v.last_fee_charge_timestamp ≠ 0 →
      ∀ v', charge_fees v invested t = .ok v' →
        v'.pending_fees_sf = v.pending_fees_sf +
          new_fees_spec v.prev_aum_sf (new_aum_value v invested.total)
            v.management_fee_bps v.performance_fee_bps (t - v.last_fee_charge_timestamp) ∧
        v'.prev_aum_sf = new_aum_value v invested.total -
          new_fees_spec v.prev_aum_sf (new_aum_value v invested.total)
            v.management_fee_bps v.performance_fee_bps (t - v.last_fee_charge_timestamp) ∧
        v'.last_fee_charge_timestamp = t) ∧
    (v.last_fee_charge_timestamp = 0 →
      charge_fees v invested t = .ok { v with last_fee_charge_timestamp := t }) := by
  constructor
  · intro h v' hok
    unfold charge_fees at hok
    rw [if_neg h] at hok
    injection hok with hv
    subst hv
    have hmgmt :
        (if t - v.last_fee_charge_timestamp = 0 then 0
          else fracMul v.prev_aum_sf (fromBps v.management_fee_bps *
            (t - v.last_fee_charge_timestamp) / SECONDS_PER_YEAR_CEIL)) =
        mgmt_charge_spec v.prev_aum_sf v.management_fee_bps
          (t - v.last_fee_charge_timestamp) := by
      split
      · next h0 => simp [mgmt_charge_spec, h0, fracMul, Nat.zero_div]
      · rfl
    refine ⟨?_, ?_, rfl⟩ <;>
      simp only [new_fees_spec, perf_charge_spec, ← hmgmt, new_aum_eq]
  · intro h
    unfold charge_fees
    rw [if_pos h]

/-- A concrete initialized vault: 100 tokens available, 100 bps management fee,
fee clock at 3. -/
def c2Vault : VaultState :=
  { baseVault with
    last_fee_charge_timestamp := 3
    token_available := 100
    management_fee_bps := 100 }

/-- C2 witness: the formulas at a concrete input with `last_fee_charge_time ≠ 0`. -/
theorem C2_witness :
    ∀ v', charge_fees c2Vault emptyInvested 10 = .ok v' →
      v'.pending_fees_sf = c2Vault.pending_fees_sf +
        new_fees_spec c2Vault.prev_aum_sf (new_aum_value c2Vault 0)
          c2Vault.management_fee_bps c2Vault.performance_fee_bps 7 ∧
      v'.prev_aum_sf = new_aum_value c2Vault 0 -
        new_fees_spec c2Vault.prev_aum_sf (new_aum_value c2Vault 0)
          c2Vault.management_fee_bps c2Vault.performance_fee_bps 7 ∧
      v'.last_fee_charge_timestamp = 10 :=
  (C2_charge_fees_formulas c2Vault emptyInvested 10).1 (by decide)

/-- The pending fees reported by a `charge_fees` result (0 on error, which never
occurs). -/
def pendingAfter (r : Except VaultError VaultState) : Nat :=
  match r with
  | .ok v => v.pending_fees_sf
  | .error _ => 0

/-- A concrete vault with an uninitialized fee clock, holdings of 100 and a 10%
performance fee. -/
def c6Vault : VaultState :=
  { baseVault with
    token_available := 100
    performance_fee_bps := 1000 }

/-- The vault `c6Vault` after its first `charge_fees` call at `t = 5`. -/
def c6Vault1 : VaultState :=
  { c6Vault with last_fee_charge_timestamp := 5 }

/-- C6 counterexample: on a vault whose fee clock is uninitialized
(`last_fee_charge_time == 0`) but whose `prev_aum` is stale relative to its
holdings, the first call at `t = 5` only records the timestamp, and the second
call at the same timestamp charges a performance fee, changing `pending_fees` —
refuting idempotence for every vault state. -/
theorem C6_counterexample :
    charge_fees c6Vault emptyInvested 5 = .ok c6Vault1 ∧
    pendingAfter (charge_fees c6Vault1 emptyInvested 5) ≠ c6Vault1.pending_fees_sf := by
  constructor
  · rfl
  · decide

/-- Helper: a `charge_fees` call whose timestamp equals the (nonzero) stored clock
and whose `prev_aum` already matches the clamped AUM changes neither `pending_fees`
nor `prev_aum`. -/
theorem charge_fees_fixed (w : VaultState) (invested : Invested) (t : Nat)
    (hw : w.last_fee_charge_timestamp = t) (ht : t ≠ 0)
    (hprev : w.prev_aum_sf = new_aum_value w invested.total)
    (v2 : VaultState) (h2 : charge_fees w invested t = .ok v2) :
    v2.pending_fees_sf = w.pending_fees_sf ∧ v2.prev_aum_sf = w.prev_aum_sf := by
  unfold charge_fees at h2
  rw [if_neg (by rw [hw]; exact ht)] at h2
  rw [hw] at h2
  simp only [Nat.sub_self, reduceIte, new_aum_eq, ← hprev, fracMul_zero, Nat.zero_min,
    Nat.add_zero, Nat.zero_add, Nat.sub_zero] at h2
  injection h2 with hv2
  subst hv2
  exact ⟨rfl, rfl⟩

/-- C6 (amended): fee accrual is idempotent at a fixed timestamp and fixed holdings
provided the vault's fee clock was already initialized (`last_fee_charge_time ≠ 0`)
before the first call: the second call at the same timestamp changes neither
`pending_fees` nor `prev_aum`. -/
theorem C6_charge_fees_idempotent (v : VaultState) (invested : Invested) (t : Nat)
    (h : v.last_fee_charge_timestamp ≠ 0) (v1 v2 : VaultState)
    (h1 : charge_fees v invested t = .ok v1)
    (h2 : charge_fees v1 invested t = .ok v2) :
    v2.pending_fees_sf = v1.pending_fees_sf ∧ v2.prev_aum_sf = v1.prev_aum_sf := by
  unfold charge_fees at h1
  rw [if_neg h] at h1
  injection h1 with hv1
  subst hv1
  by_cases ht : t = 0
  · subst ht
    unfold charge_fees at h2
    rw [if_pos rfl] at h2
    injection h2 with hv2
    subst hv2
    exact ⟨rfl, rfl⟩
  · refine charge_fees_fixed _ invested t rfl ht ?_ v2 h2
    simp only [new_aum_value, new_aum_eq]
    rw [Nat.sub_sub]

/-- C6 witness: idempotence at a concrete initialized vault. -/
theorem C6_witness :
    ∃ v1 v2, charge_fees { c6Vault with last_fee_charge_timestamp := 2 }
        emptyInvested 5 = .ok v1 ∧
      charge_fees v1 emptyInvested 5 = .ok v2 ∧
      v2.pending_fees_sf = v1.pending_fees_sf ∧ v2.prev_aum_sf = v1.prev_aum_sf := by
  obtain ⟨v1, hv1⟩ := charge_fees_isOk { c6Vault with last_fee_charge_timestamp := 2 }
    emptyInvested 5
  obtain ⟨v2, hv2⟩ := charge_fees_isOk v1 emptyInvested 5
  exact ⟨v1, v2, hv1, hv2,
    C6_charge_fees_idempotent _ emptyInvested 5 (by decide) v1 v2 hv1 hv2⟩

/-- C7 counterexample: setting the management fee to 10000 bps — allowed by the
claim (`v ≤ 10000`) — is rejected by the code, whose bound is
`MAX_MGMT_FEE_BPS = 1000`. -/
theorem C7_counterexample :
    update_vault_config baseVault .managementFeeBps 10000 =
      .error .managementFeeGreaterThanMaxAllowed := by
  rfl

/-- C7 (amended): updating the management-fee field succeeds for every value
`v ≤ 1000` (`MAX_MGMT_FEE_BPS`), setting `management_fee_bps` to `v`, and fails for
every `v > 1000`. -/
theorem C7_update_mgmt_fee (v : VaultState) (value : Nat) :
    (value ≤ MAX_MGMT_FEE_BPS →
      update_vault_config v .managementFeeBps value =
        .ok { v with management_fee_bps := value }) ∧
    (MAX_MGMT_FEE_BPS < value →
      update_vault_config v .managementFeeBps value =
        .error .managementFeeGreaterThanMaxAllowed) := by
  constructor
  · intro h
    simp [update_vault_config, Nat.not_lt.mpr h]
  · intro h
    simp [update_vault_config, h]

/-- C7 witness: both branches at concrete values 1000 and 1001. -/
theorem C7_witness :
    update_vault_config baseVault .managementFeeBps 1000 =
      .ok { baseVault with management_fee_bps := 1000 } ∧
    update_vault_config baseVault .managementFeeBps 1001 =
      .error .managementFeeGreaterThanMaxAllowed :=
  ⟨(C7_update_mgmt_fee baseVault 1000).1 (by decide),
   (C7_update_mgmt_fee baseVault 1001).2 (by decide)⟩

/-- C9: `charge_fees` never returns an error; and when the pending fees exceed
`available + invested` (the case where `compute_aum` reports the negative-AUM
error), it clamps the new AUM to zero and proceeds: `pending_fees` is unchanged and
`prev_aum` becomes zero. -/
theorem C9_charge_fees_never_fails (v : VaultState) (invested : Invested) (t : Nat) :
    (∃ v', charge_fees v invested t = .ok v') ∧
    (v.last_fee_charge_timestamp ≠ 0 →
      fracOfNat v.token_available + invested.total < v.pending_fees_sf →
      ∃ v', charge_fees v invested t = .ok v' ∧
        compute_aum v invested.total = .error .aumBelowPendingFees ∧
        v'.pending_fees_sf = v.pending_fees_sf ∧ v'.prev_aum_sf = 0) := by
  refine ⟨charge_fees_isOk v invested t, ?_⟩
  intro h hlt
  have haum : compute_aum v invested.total = .error .aumBelowPendingFees := by
    unfold compute_aum
    rw [if_pos hlt]
  have hzero : new_aum_value v invested.total = 0 :=
    Nat.sub_eq_zero_of_le (Nat.le_of_lt hlt)
  obtain ⟨v', hv'⟩ := charge_fees_isOk v invested t
  refine ⟨v', hv', haum, ?_⟩
  unfold charge_fees at hv'
  rw [if_neg h] at hv'
  simp only [new_aum_eq, hzero, Nat.zero_sub, Nat.min_zero, Nat.add_zero] at hv'
  injection hv' with hv
  subst hv
  exact ⟨rfl, rfl⟩

/-- A concrete initialized vault whose pending fees (5 bits) exceed its holdings
(zero). -/
def c9Vault : VaultState :=
  { baseVault with
    last_fee_charge_timestamp := 3
    pending_fees_sf := 5 }

/-- C9 witness: the in-particular clause at a concrete vault whose pending fees
exceed its holdings. -/
theorem C9_witness :
    ∃ v', charge_fees c9Vault emptyInvested 7 = .ok v' ∧
      compute_aum c9Vault 0 = .error .aumBelowPendingFees ∧
      v'.pending_fees_sf = c9Vault.pending_fees_sf ∧ v'.prev_aum_sf = 0 :=
  (C9_charge_fees_never_fails c9Vault emptyInvested 7).2 (by decide) (by decide)

/-- Modelled from the spec: the reserve's collateral-to-liquidity conversion at the
external kamino-lending boundary (§4.1/§6) — collateral divided by the exchange
rate (collateral per unit liquidity), floored on the fixed-point grid.  `rate` and
`coll_bits` are `Fraction` bits. -/
def fraction_collateral_to_liquidity (rate coll_bits : Nat) : Nat :=
  coll_bits * F / rate

/-- Modelled from the spec: liquidity-to-collateral conversion rounded up on the
fixed-point grid (§4.4: "rounded up when converting the needed liquidity into
collateral-units-to-redeem").  `rate` and `liq_bits` are `Fraction` bits. -/
def fraction_liquidity_to_collateral_ceil (rate liq_bits : Nat) : Nat :=
  ceilDiv (liq_bits * rate) F

/-- Modelled from the spec: integer liquidity-to-collateral conversion, ceiled
(`liquidity_to_collateral_ceil` at the kamino-lending boundary). -/
def liquidity_to_collateral_ceil (rate liq : Nat) : Nat :=
  toCeil (liq * rate)

/-- The placeholder invested entry for an empty allocation slot. -/
def InvestedReserve.empty : InvestedReserve :=
  { reserve := 0, liquidity_amount := 0, ctoken_amount := 0, target_weight := 0 }

/-- The invested entry computed for a live allocation slot from its snapshot. -/
def invested_entry (a : VaultAllocation) (s : ReserveSnap) : InvestedReserve :=
  { reserve := a.reserve,
    liquidity_amount := fraction_collateral_to_liquidity s.rate
      (fracOfNat a.ctoken_allocation),
    ctoken_amount := a.ctoken_allocation,
    target_weight := a.target_allocation_weight }

/-- The recursion of `common::amounts_invested`: walks the allocation table in
order, skipping empty slots, and consumes one snapshot per live slot, checking
identity and staleness; returns the per-slot invested entries (positional, with
placeholders) and the total invested liquidity. -/
def amounts_invested_go :
    List VaultAllocation → List ReserveSnap →
      Except VaultError (List InvestedReserve × Nat)
  | [], _ => .ok ([], 0)
  | a :: rest, snaps =>
    if a.reserve = 0 then
      (amounts_invested_go rest snaps).bind fun p =>
        .ok (InvestedReserve.empty :: p.1, p.2)
    else
      match snaps with
      | [] => .error .reserveNotProvidedInTheAccounts
      | s :: srest =>
        if s.key ≠ a.reserve then .error .reserveAccountAndKeyMismatch
        else if s.stale then .error .reserveIsStale
        else
          (amounts_invested_go rest srest).bind fun p =>
            .ok (invested_entry a s :: p.1,
                 (invested_entry a s).liquidity_amount + p.2)

theorem amounts_invested_go_nil (snaps : List ReserveSnap) :
    amounts_invested_go [] snaps = .ok ([], 0) := rfl

theorem amounts_invested_go_cons_nil (a : VaultAllocation)
    (rest : List VaultAllocation) :
    amounts_invested_go (a :: rest) [] =
      if a.reserve = 0 then
        (amounts_invested_go rest []).bind fun p =>
          .ok (InvestedReserve.empty :: p.1, p.2)
      else .error .reserveNotProvidedInTheAccounts := rfl

theorem amounts_invested_go_cons_cons (a : VaultAllocation)
    (rest : List VaultAllocation) (s : ReserveSnap) (srest : List ReserveSnap) :
    amounts_invested_go (a :: rest) (s :: srest) =
      if a.reserve = 0 then
        (amounts_invested_go rest (s :: srest)).bind fun p =>
          .ok (InvestedReserve.empty :: p.1, p.2)
      else if s.key ≠ a.reserve then .error .reserveAccountAndKeyMismatch
      else if s.stale then .error .reserveIsStale
      else
        (amounts_invested_go rest srest).bind fun p =>
          .ok (invested_entry a s :: p.1,
               (invested_entry a s).liquidity_amount + p.2) := rfl

/-- `common::amounts_invested` (staleness is pre-evaluated into each snapshot's
`stale` flag, so the slot argument is not modelled). -/
def amounts_invested (v : VaultState) (snaps : List ReserveSnap) :
    Except VaultError Invested :=
  (amounts_invested_go v.vault_allocation_strategy snaps).bind fun p =>
    .ok ⟨p.1, p.2⟩

/-- `common::Holdings`. -/
structure Holdings where
  available : Nat
  invested : Invested
  total_sum : Nat
deriving Repr, DecidableEq

/-- `common::available_to_invest`. -/
def available_to_invest (v : VaultState) : Nat := v.token_available

/-- `common::holdings` / `common::underlying_inventory`. -/
def holdings (v : VaultState) (snaps : List ReserveSnap) :
    Except VaultError Holdings :=
  (amounts_invested v snaps).bind fun invested =>
    .ok ⟨available_to_invest v, invested,
         fracOfNat (available_to_invest v) + invested.total⟩

/-- `common::get_shares_to_mint`: 1:1 bootstrap when no shares are issued;
otherwise `shares_issued * amount / ceil(AUM)`, floored, failing on zero AUM. -/
def get_shares_to_mint (holdings_aum user_token_amount shares_issued : Nat) :
    Except VaultError Nat :=
  if shares_issued = 0 then .ok user_token_amount
  else if holdings_aum = 0 then .error .vaultAUMZero
  else .ok (toFloor (fullMulIntDiv (fracOfNat shares_issued) user_token_amount
    (toCeil holdings_aum)))

/-- `common::compute_amount_to_deposit_from_shares_to_mint`: the raw shares amount
at bootstrap, else `ceil(holdings * shares_to_mint / total_shares)`. -/
def compute_amount_to_deposit_from_shares_to_mint
    (vault_total_shares vault_total_holdings shares_to_mint : Nat) : Nat :=
  if vault_total_shares = 0 then shares_to_mint
  else toCeil (fullMulIntDivCeil vault_total_holdings shares_to_mint vault_total_shares)

/-- `VaultState::get_reserves_with_allocation_count`: live slots with positive
weight and positive cap. -/
def get_reserves_with_allocation_count (v : VaultState) : Nat :=
  (v.vault_allocation_strategy.filter
    (fun r => r.reserve != 0 && decide (0 < r.target_allocation_weight) &&
      decide (0 < r.token_allocation_cap))).length

/-- `DepositEffects` from `operations/effects.rs`. -/
structure DepositEffects where
  shares_to_mint : Nat
  token_to_deposit : Nat
  crank_funds_to_deposit : Nat
deriving Repr, DecidableEq

/-- `deposit` from `vault_operations.rs` (lines 46-109): the crank funds are
carved out first (`crank_funds = live-with-allocation count * fee`; the unchecked
`u64` subtraction `max_amount - crank_funds` is modelled by the explicit
`arithmeticAbort` outcome when it would wrap), then holdings, fee accrual, AUM,
shares to mint, the back-computed charged amount, the minimum/zero checks, and the
accounting effects.  The slot argument only feeds the staleness checks, which are
pre-evaluated into the snapshots. -/
def deposit (v : VaultState) (snaps : List ReserveSnap)
    (max_amount current_slot current_timestamp : Nat) :
    Except VaultError (VaultState × DepositEffects) :=
  if max_amount < get_reserves_with_allocation_count v * v.crank_fund_fee_per_reserve then
    .error .arithmeticAbort
  else
    (holdings v snaps).bind fun h =>
      (charge_fees v h.invested current_timestamp).bind fun v1 =>
        (compute_aum v1 h.invested.total).bind fun current_vault_aum =>
          (get_shares_to_mint current_vault_aum
              (max_amount - get_reserves_with_allocation_count v * v.crank_fund_fee_per_reserve)
              v1.shares_issued).bind fun shares_to_mint =>
            if compute_amount_to_deposit_from_shares_to_mint
                v1.shares_issued current_vault_aum shares_to_mint <
                v1.min_deposit_amount then
              .error .depositAmountBelowMinimum
            else if shares_to_mint = 0 then .error .depositAmountsZeroShares
            else
              .ok ({ v1 with
                      token_available := v1.token_available +
                        compute_amount_to_deposit_from_shares_to_mint
                          v1.shares_issued current_vault_aum shares_to_mint,
                      shares_issued := v1.shares_issued + shares_to_mint,
                      prev_aum_sf := current_vault_aum + fracOfNat
                        (compute_amount_to_deposit_from_shares_to_mint
                          v1.shares_issued current_vault_aum shares_to_mint),
                      available_crank_funds := v1.available_crank_funds +
                        get_reserves_with_allocation_count v * v.crank_fund_fee_per_reserve },
                    ⟨shares_to_mint,
                     compute_amount_to_deposit_from_shares_to_mint
                       v1.shares_issued current_vault_aum shares_to_mint,
                     get_reserves_with_allocation_count v * v.crank_fund_fee_per_reserve⟩)

theorem floor_scaled_div (s t c : Nat) :
    toFloor (fullMulIntDiv (fracOfNat s) t c) = s * t / c := by
  unfold toFloor fullMulIntDiv fracOfNat
  rw [Nat.div_div_eq_div_mul, show s * F * t = s * t * F by ring]
  exact Nat.mul_div_mul_right _ _ F_pos

theorem ceilDiv_le_iff (a b m : Nat) (hb : 0 < b) :
    ceilDiv a b ≤ m ↔ a ≤ b * m := by
  unfold ceilDiv
  rw [Nat.div_le_iff_le_mul_add_pred hb, Nat.add_sub_assoc hb]
  exact Nat.add_le_add_iff_right

theorem ceilDiv_ceilDiv (n a b : Nat) (ha : 0 < a) (hb : 0 < b) :
    ceilDiv (ceilDiv n a) b = ceilDiv n (a * b) := by
  have key : ∀ m, (ceilDiv (ceilDiv n a) b ≤ m ↔ ceilDiv n (a * b) ≤ m) := by
    intro m
    rw [ceilDiv_le_iff _ _ _ hb, ceilDiv_le_iff _ _ _ ha,
      ceilDiv_le_iff _ _ _ (Nat.mul_pos ha hb), Nat.mul_assoc]
  exact Nat.le_antisymm ((key _).mpr le_rfl) ((key _).mp le_rfl)

/-- The errors of `amounts_invested_go` are exactly the snapshot-sequence errors. -/
theorem amounts_invested_go_error (slots : List VaultAllocation)
    (snaps : List ReserveSnap) (e : VaultError)
    (h : amounts_invested_go slots snaps = .error e) :
    e = .reserveNotProvidedInTheAccounts ∨ e = .reserveAccountAndKeyMismatch ∨
      e = .reserveIsStale := by
  induction slots generalizing snaps with
  | nil => exact absurd h (by simp [amounts_invested_go_nil])
  | cons a rest ih =>
    rcases snaps with _ | ⟨s, srest⟩
    · rw [amounts_invested_go_cons_nil] at h
      split at h
      · rcases hrec : amounts_invested_go rest [] with e' | p <;> rw [hrec] at h <;>
          simp only [Except.bind] at h
        · injection h with h'
          subst h'
          exact ih [] hrec
        · exact Except.noConfusion h
      · injection h with h'
        subst h'
        exact Or.inl rfl
    · rw [amounts_invested_go_cons_cons] at h
      split at h
      · rcases hrec : amounts_invested_go rest (s :: srest) with e' | p <;> rw [hrec] at h <;>
          simp only [Except.bind] at h
        · injection h with h'
          subst h'
          exact ih _ hrec
        · exact Except.noConfusion h
      · split at h
        · injection h with h'
          subst h'
          exact Or.inr (Or.inl rfl)
        · split at h
          · injection h with h'
            subst h'
            exact Or.inr (Or.inr rfl)
          · rcases hrec : amounts_invested_go rest srest with e' | p <;> rw [hrec] at h <;>
              simp only [Except.bind] at h
            · injection h with h'
              subst h'
              exact ih _ hrec
            · exact Except.noConfusion h

/-- The errors of `holdings` are exactly the snapshot-sequence errors. -/
theorem holdings_error (v : VaultState) (snaps : List ReserveSnap) (e : VaultError)
    (h : holdings v snaps = .error e) :
    e = .reserveNotProvidedInTheAccounts ∨ e = .reserveAccountAndKeyMismatch ∨
      e = .reserveIsStale := by
  unfold holdings amounts_invested at h
  rcases hrec : amounts_invested_go v.vault_allocation_strategy snaps
      with e' | p <;> rw [hrec] at h <;> simp only [Except.bind] at h
  · injection h with h'
    subst h'
    exact amounts_invested_go_error _ _ _ hrec
  · exact Except.noConfusion h

/-- `compute_aum` can only fail with the negative-AUM error. -/
theorem compute_aum_error (v : VaultState) (it : Nat) (e : VaultError)
    (h : compute_aum v it = .error e) : e = .aumBelowPendingFees := by
  unfold compute_aum at h
  split at h
  · injection h with h'
    exact h'.symm
  · exact Except.noConfusion h

/-- `get_shares_to_mint` can only fail with the zero-AUM error. -/
theorem get_shares_to_mint_error (aum amt s : Nat) (e : VaultError)
    (h : get_shares_to_mint aum amt s = .error e) : e = .vaultAUMZero := by
  unfold get_shares_to_mint at h
  split at h
  · exact Except.noConfusion h
  · split at h
    · injection h with h'
      exact h'.symm
    · exact Except.noConfusion h

/-- C1: for every successful deposit, when `shares_issued > 0` the minted shares
equal `floor(shares_issued * tendered / ceil(AUM))` — with `tendered = max_amount
- crank_funds` and the AUM computed after fee accrual — and the charged amount
equals `ceil(AUM * shares_to_mint / shares_issued)`; when `shares_issued == 0`
both equal the tendered amount.  (`ceilDiv (aum * s) (shares * F)` is
`ceil((aum/F) * s / shares)`, the real-valued ceiling of the claim.) -/
theorem C1_deposit_amounts (v : VaultState) (snaps : List ReserveSnap)
    (max_amount slot ts : Nat) (h : Holdings) (v1 : VaultState) (aum : Nat)
    (v' : VaultState) (eff : DepositEffects)
    (hh : holdings v snaps = .ok h)
    (hc : charge_fees v h.invested ts = .ok v1)
    (ha : compute_aum v1 h.invested.total = .ok aum)
    (hd : deposit v snaps max_amount slot ts = .ok (v', eff)) :
    (v1.shares_issued = 0 →
      eff.shares_to_mint =
        max_amount - get_reserves_with_allocation_count v * v.crank_fund_fee_per_reserve ∧
      eff.token_to_deposit =
        max_amount - get_reserves_with_allocation_count v * v.crank_fund_fee_per_reserve) ∧
    (v1.shares_issued ≠ 0 →
      eff.shares_to_mint =
        v1.shares_issued *
          (max_amount - get_reserves_with_allocation_count v * v.crank_fund_fee_per_reserve) /
          toCeil aum ∧
      eff.token_to_deposit =
        ceilDiv (aum * eff.shares_to_mint) (v1.shares_issued * F)) := by
  unfold deposit at hd
  by_cases hcr : max_amount <
      get_reserves_with_allocation_count v * v.crank_fund_fee_per_reserve
  · rw [if_pos hcr] at hd
    exact Except.noConfusion hd
  · rw [if_neg hcr, hh] at hd
    simp only [Except.bind] at hd
    rw [hc] at hd
    simp only [Except.bind] at hd
    rw [ha] at hd
    simp only [Except.bind] at hd
    rcases hg : get_shares_to_mint aum
        (max_amount - get_reserves_with_allocation_count v * v.crank_fund_fee_per_reserve)
        v1.shares_issued with e | stm <;> rw [hg] at hd <;> simp only [Except.bind] at hd
    · exact Except.noConfusion hd
    · split at hd
      · exact Except.noConfusion hd
      · split at hd
        · exact Except.noConfusion hd
        · injection hd with hd'
          injection hd' with hv he
          subst he
          by_cases hs : v1.shares_issued = 0
          · unfold get_shares_to_mint at hg
            rw [if_pos hs] at hg
            injection hg with hg'
            subst hg'
            refine ⟨fun _ => ⟨rfl, ?_⟩, fun hcon => absurd hs hcon⟩
            show compute_amount_to_deposit_from_shares_to_mint v1.shares_issued aum _ = _
            unfold compute_amount_to_deposit_from_shares_to_mint
            rw [if_pos hs]
          · unfold get_shares_to_mint at hg
            rw [if_neg hs] at hg
            split at hg
            · exact Except.noConfusion hg
            · injection hg with hg'
              subst hg'
              refine ⟨fun hcon => absurd hcon hs, fun _ => ⟨floor_scaled_div _ _ _, ?_⟩⟩
              show compute_amount_to_deposit_from_shares_to_mint v1.shares_issued aum _ = _
              unfold compute_amount_to_deposit_from_shares_to_mint
              rw [if_neg hs]
              unfold toCeil fullMulIntDivCeil
              rw [ceilDiv_ceilDiv _ _ _ (Nat.pos_of_ne_zero hs) F_pos]

/-- A concrete vault for the deposit witness: 1000 shares over 1000 available
tokens, fee clock initialized and `prev_aum` in sync, no fees. -/
def c1Vault : VaultState :=
  { baseVault with
    token_available := 1000
    shares_issued := 1000
    last_fee_charge_timestamp := 4
    prev_aum_sf := fracOfNat 1000 }

/-- C1 witness: the proportional-deposit scenario (1000 shares, AUM 1000, deposit
500 tokens, no configured reserves) through the theorem at concrete inputs:
500 shares are minted and 500 tokens charged. -/
theorem C1_witness :
    deposit c1Vault [] 500 9 4 =
      .ok ({ c1Vault with
              token_available := 1500
              shares_issued := 1500
              prev_aum_sf := fracOfNat 1000 + fracOfNat 500 },
           ⟨500, 500, 0⟩) ∧
    (500 : Nat) = 1000 * 500 / toCeil (fracOfNat 1000) ∧
    (500 : Nat) = ceilDiv (fracOfNat 1000 * 500) (1000 * F) := by
  have hd : deposit c1Vault [] 500 9 4 =
      .ok ({ c1Vault with
              token_available := 1500
              shares_issued := 1500
              prev_aum_sf := fracOfNat 1000 + fracOfNat 500 },
           ⟨500, 500, 0⟩) := by rfl
  refine ⟨hd, ?_⟩
  exact (C1_deposit_amounts c1Vault [] 500 9 4 ⟨1000, emptyInvested, fracOfNat 1000⟩
    c1Vault (fracOfNat 1000) _ _ (by rfl) (by rfl) (by rfl) hd).2 (by decide)

/-- C8: `deposit` hits the unchecked `u64` underflow (aborting rather than
returning a validation error) exactly when `max_amount` is smaller than
`(number of live allocation entries with positive weight and positive cap) *
crank_fund_fee_per_reserve`; for every `max_amount` at least that product the
subtraction cannot wrap and no abort occurs. -/
theorem C8_deposit_underflow (v : VaultState) (snaps : List ReserveSnap)
    (max_amount slot ts : Nat) :
    deposit v snaps max_amount slot ts = .error .arithmeticAbort ↔
      max_amount < get_reserves_with_allocation_count v * v.crank_fund_fee_per_reserve := by
  constructor
  · intro hd
    by_contra hlt
    unfold deposit at hd
    rw [if_neg hlt] at hd
    rcases hh : holdings v snaps with e | h <;> rw [hh] at hd <;>
      simp only [Except.bind] at hd
    · injection hd with hd'
      subst hd'
      rcases holdings_error v snaps _ hh with h1 | h1 | h1 <;> exact VaultError.noConfusion h1
    · rcases hc : charge_fees v h.invested ts with e | v1 <;> rw [hc] at hd <;>
        simp only [Except.bind] at hd
      · obtain ⟨v2, hv2⟩ := charge_fees_isOk v h.invested ts
        rw [hv2] at hc
        exact Except.noConfusion hc
      · rcases ha : compute_aum v1 h.invested.total with e | aum <;> rw [ha] at hd <;>
          simp only [Except.bind] at hd
        · injection hd with hd'
          subst hd'
          exact VaultError.noConfusion (compute_aum_error _ _ _ ha)
        · rcases hg : get_shares_to_mint aum
              (max_amount - get_reserves_with_allocation_count v * v.crank_fund_fee_per_reserve)
              v1.shares_issued with e | stm <;> rw [hg] at hd <;>
            simp only [Except.bind] at hd
          · injection hd with hd'
            subst hd'
            exact VaultError.noConfusion (get_shares_to_mint_error _ _ _ _ hg)
          · split at hd
            · injection hd with hd'
              exact VaultError.noConfusion hd'
            · split at hd
              · injection hd with hd'
                exact VaultError.noConfusion hd'
              · exact Except.noConfusion hd
  · intro hlt
    unfold deposit
    rw [if_pos hlt]

/-- A live allocation slot (reserve 1, weight 1, cap 100, no collateral). -/
def c8Alloc : VaultAllocation :=
  { reserve := 1
    target_allocation_weight := 1
    token_allocation_cap := 100
    ctoken_allocation := 0
    last_invest_slot := 0
    token_target_allocation_sf := 0 }

/-- A vault with one live allocation and a crank fee of 7 per reserve. -/
def c8Vault : VaultState :=
  { baseVault with
    vault_allocation_strategy := [c8Alloc]
    crank_fund_fee_per_reserve := 7 }

/-- `common::compute_user_total_received_on_withdraw`: the whole AUM (floored) when
burning all issued shares, else `floor(AUM * shares / shares_issued)`. -/
def compute_user_total_received_on_withdraw
    (shares_issued vault_total_holdings shares_to_withdraw : Nat) : Nat :=
  if shares_issued = shares_to_withdraw then toFloor vault_total_holdings
  else toFloor (fullMulIntDiv vault_total_holdings shares_to_withdraw shares_issued)

/-- `common::calculate_shares_to_burn`: `ceil(amount * supply / floor(total))`,
capped at the requested shares. -/
def calculate_shares_to_burn
    (amount_to_send_to_user total_supply total_sum number_of_shares : Nat) : Nat :=
  min (toCeil (fullMulIntDiv amount_to_send_to_user total_supply (toFloor total_sum)))
    number_of_shares

/-- `VaultState::is_allocated_to_reserve`: tests every allocation slot, the empty
ones included. -/
def is_allocated_to_reserve (v : VaultState) (reserve : Nat) : Bool :=
  v.vault_allocation_strategy.any (fun r => r.reserve == reserve)

/-- `Invested::in_reserve` (the code unwraps the find; `none` models the panic). -/
def in_reserve (inv : Invested) (reserve : Nat) : Option InvestedReserve :=
  inv.allocations.find? (fun a => a.reserve == reserve)

/-- `VaultState::get_reserve_idx_in_allocation`. -/
def get_reserve_idx_in_allocation (v : VaultState) (reserve : Nat) : Option Nat :=
  v.vault_allocation_strategy.findIdx? (fun r => r.reserve == reserve)

/-- Subtract `ctokens` from the `ctoken_allocation` of the slot at index `i`
(the `u64` subtraction in the source can wrap; truncated here, not exercised by
any claim). -/
def ctoken_sub_at : List VaultAllocation → Nat → Nat → List VaultAllocation
  | [], _, _ => []
  | a :: rest, 0, ctokens =>
    { a with ctoken_allocation := a.ctoken_allocation - ctokens } :: rest
  | a :: rest, i + 1, ctokens => a :: ctoken_sub_at rest i ctokens

/-- `common::withdraw_from_vault_allocation`. -/
def withdraw_from_vault_allocation (v : VaultState) (ctokens reserve : Nat) :
    Except VaultError VaultState :=
  match get_reserve_idx_in_allocation v reserve with
  | none => .error .cannotFindReserveInAllocations
  | some idx =>
    .ok { v with vault_allocation_strategy :=
            ctoken_sub_at v.vault_allocation_strategy idx ctokens }

theorem withdraw_from_vault_allocation_error (v : VaultState) (ct r : Nat)
    (e : VaultError) (h : withdraw_from_vault_allocation v ct r = .error e) :
    e = .cannotFindReserveInAllocations := by
  unfold withdraw_from_vault_allocation at h
  rcases hidx : get_reserve_idx_in_allocation v r with _ | idx <;> rw [hidx] at h
  · injection h with h'
    exact h'.symm
  · exact Except.noConfusion h

/-- `WithdrawEffects` from `operations/effects.rs`. -/
structure WithdrawEffects where
  shares_to_burn : Nat
  available_to_send_to_user : Nat
  invested_to_disinvest_ctokens : Nat
  invested_liquidity_to_send_to_user : Nat
  invested_liquidity_to_disinvest : Nat
deriving Repr, DecidableEq

/-- The disinvestment block of `withdraw` (lines 156-212): when a target reserve is
named, draw the residual need from that reserve's invested liquidity; ceil the
collateral to redeem, cap it by the ctokens owned, floor the redeemed liquidity,
and charge a 1-lamport rounding adjustment when the disinvestment's fractional
loss exceeds the user's fractional entitlement.  Returns `(liquidity to send (as
fraction bits), liquidity to disinvest, ctokens to redeem, rounding adjustment)`.
The `unwrap`s on the invested entry and the reserve state are modelled as
`unwrapAbort`. -/
def withdraw_disinvest (h : Holdings) (reserve_addr : Option Nat)
    (reserve_rate : Option Nat) (reserve_ctokens_owned : Option Nat)
    (total_for_user available_to_send_to_user : Nat) :
    Except VaultError (Nat × Nat × Nat × Nat) :=
  match reserve_addr with
  | none => .ok (0, 0, 0, 0)
  | some addr =>
    match in_reserve h.invested addr with
    | none => .error .unwrapAbort
    | some inv_res =>
      if min inv_res.liquidity_amount
          (fracOfNat (total_for_user - available_to_send_to_user)) = 0 then
        .ok (0, 0, 0, 0)
      else
        match reserve_rate with
        | none => .error .unwrapAbort
        | some rate =>
          let to_send_f := min inv_res.liquidity_amount
            (fracOfNat (total_for_user - available_to_send_to_user))
          let ctokens := min
            (toCeil (fraction_liquidity_to_collateral_ceil rate (floorFrac to_send_f)))
            (reserve_ctokens_owned.getD 0)
          let disinvest_f := fraction_collateral_to_liquidity rate (fracOfNat ctokens)
          .ok (to_send_f, toFloor disinvest_f, ctokens,
               if 0 < fracPart disinvest_f ∧ fracPart to_send_f < fracPart disinvest_f
               then 1 else 0)

/-- `withdraw` from `vault_operations.rs` (lines 113-279).  The result tuple `q` of
the disinvestment block is `(to_send_f, to_disinvest, ctokens, rounding_adj)`.
The two `U256` divisions by zero (entitlement with `shares_issued == 0`, shares to
burn with `floor(AUM) == 0`) are modelled as explicit `unwrapAbort` checks at
their call sites.  The accounting updates are merged into single record updates in
the order of the source. -/
def withdraw (v : VaultState) (reserve_addr : Option Nat) (reserve_rate : Option Nat)
    (snaps : List ReserveSnap) (current_timestamp current_slot number_of_shares : Nat)
    (reserve_ctokens_owned : Option Nat) :
    Except VaultError (VaultState × WithdrawEffects) :=
  if number_of_shares = 0 then .error .cannotWithdrawZeroShares
  else
    (holdings v snaps).bind fun h =>
    (charge_fees v h.invested current_timestamp).bind fun v1 =>
    (compute_aum v1 h.invested.total).bind fun current_vault_aum =>
    if current_vault_aum = 0 then .error .vaultAUMZero
    else if v1.shares_issued = 0 ∧ v1.shares_issued ≠ number_of_shares then
      .error .unwrapAbort
    else
      let total_for_user := compute_user_total_received_on_withdraw
        v1.shares_issued current_vault_aum number_of_shares
      let available_to_send_to_user := min h.available total_for_user
      (withdraw_disinvest h reserve_addr reserve_rate reserve_ctokens_owned
          total_for_user available_to_send_to_user).bind fun q =>
      if toFloor current_vault_aum = 0 then .error .unwrapAbort
      else
        let shares_to_burn := calculate_shares_to_burn
          (fracOfNat available_to_send_to_user + q.1)
          v1.shares_issued current_vault_aum number_of_shares
        if shares_to_burn = 0 then .error .withdrawResultsInZeroShares
        else if available_to_send_to_user + toFloor q.1 ≤ v1.min_withdraw_amount then
          .error .withdrawAmountBelowMinimum
        else
          match reserve_addr with
          | some addr =>
            if ¬ is_allocated_to_reserve v1 addr then .error .reserveNotPartOfAllocations
            else
              (withdraw_from_vault_allocation
                { v1 with
                  token_available := v1.token_available - available_to_send_to_user +
                    (q.2.1 - (toFloor q.1 - q.2.2.2))
                  shares_issued := v1.shares_issued - shares_to_burn }
                q.2.2.1 addr).bind fun v2 =>
              .ok ({ v2 with prev_aum_sf :=
                      current_vault_aum - (fracOfNat available_to_send_to_user + q.1) },
                   ⟨shares_to_burn, available_to_send_to_user, q.2.2.1,
                    toFloor q.1 - q.2.2.2, q.2.1⟩)
          | none =>
            .ok ({ v1 with
                    token_available := v1.token_available - available_to_send_to_user +
                      (q.2.1 - (toFloor q.1 - q.2.2.2))
                    shares_issued := v1.shares_issued - shares_to_burn
                    prev_aum_sf :=
                      current_vault_aum - (fracOfNat available_to_send_to_user + q.1) },
                 ⟨shares_to_burn, available_to_send_to_user, q.2.2.1,
                  toFloor q.1 - q.2.2.2, q.2.1⟩)

/-- `charge_fees` never touches the allocation table. -/
theorem charge_fees_strategy (v : VaultState) (inv : Invested) (t : Nat)
    (v1 : VaultState) (h : charge_fees v inv t = .ok v1) :
    v1.vault_allocation_strategy = v.vault_allocation_strategy := by
  unfold charge_fees at h
  split at h <;> (injection h with h'; subst h'; rfl)

/-- A vault with 100 available tokens, 100 issued shares, a synced fee state and
`min_withdraw_amount = 50`. -/
def c4Vault : VaultState :=
  { baseVault with
    token_available := 100
    shares_issued := 100
    min_withdraw_amount := 50 }

/-- C4 counterexample: burning 50 of 100 shares of a 100-token vault delivers
exactly `min_withdraw_amount = 50`, and the withdraw fails with the below-minimum
error — the code's check is `<=`, so delivering exactly the minimum fails,
contrary to the claim. -/
theorem C4_counterexample :
    withdraw c4Vault none none [] 1 1 50 none = .error .withdrawAmountBelowMinimum ∧
    min 100 (compute_user_total_received_on_withdraw 100 (fracOfNat 100) 50) + toFloor 0 =
      c4Vault.min_withdraw_amount := by
  constructor
  · rfl
  · decide

/-- C4 (amended): when execution reaches the minimum-withdrawal check (nonzero
share input, holdings/fee accrual/AUM computed, positive AUM, no
division-by-zero abort, nonzero shares to burn), `withdraw` fails with the
below-minimum error exactly when `available_to_send_to_user +
invested_liquidity_to_send_to_user ≤ min_withdraw_amount` — inclusive, so a
withdraw delivering exactly `min_withdraw_amount` fails with this error. -/
theorem C4_withdraw_min_check (v : VaultState) (reserve_addr reserve_rate : Option Nat)
    (snaps : List ReserveSnap) (ts slot n : Nat) (owned : Option Nat)
    (h : Holdings) (v1 : VaultState) (aum : Nat) (q : Nat × Nat × Nat × Nat)
    (hn : n ≠ 0)
    (hh : holdings v snaps = .ok h)
    (hc : charge_fees v h.invested ts = .ok v1)
    (ha : compute_aum v1 h.invested.total = .ok aum)
    (haz : aum ≠ 0)
    (hsg : ¬(v1.shares_issued = 0 ∧ v1.shares_issued ≠ n))
    (hq : withdraw_disinvest h reserve_addr reserve_rate owned
      (compute_user_total_received_on_withdraw v1.shares_issued aum n)
      (min h.available (compute_user_total_received_on_withdraw v1.shares_issued aum n)) =
      .ok q)
    (hfa : toFloor aum ≠ 0)
    (hsb : calculate_shares_to_burn
      (fracOfNat (min h.available
        (compute_user_total_received_on_withdraw v1.shares_issued aum n)) + q.1)
      v1.shares_issued aum n ≠ 0) :
    withdraw v reserve_addr reserve_rate snaps ts slot n owned =
        .error .withdrawAmountBelowMinimum ↔
      min h.available (compute_user_total_received_on_withdraw v1.shares_issued aum n) +
          toFloor q.1 ≤ v1.min_withdraw_amount := by
  unfold withdraw
  rw [if_neg hn, hh]
  simp only [Except.bind]
  rw [hc]
  simp only [Except.bind]
  rw [ha]
  simp only [Except.bind]
  rw [if_neg haz, if_neg hsg, hq]
  simp only [Except.bind]
  rw [if_neg hfa, if_neg hsb]
  constructor
  · intro hres
    by_contra hcond
    rw [if_neg hcond] at hres
    split at hres
    · split at hres
      · injection hres with h'
        exact VaultError.noConfusion h'
      · split at hres
        · next e heq =>
          injection hres with h'
          subst h'
          exact VaultError.noConfusion (withdraw_from_vault_allocation_error _ _ _ _ heq)
        · exact Except.noConfusion hres
    · exact Except.noConfusion hres
  · intro hcond
    rw [if_pos hcond]

/-- C4 witness: the amended equivalence at a concrete input on both sides —
delivering 60 > 50 does not trigger the below-minimum error. -/
theorem C4_witness :
    withdraw c4Vault none none [] 1 1 60 none ≠ .error .withdrawAmountBelowMinimum :=
  fun hcon =>
    absurd ((C4_withdraw_min_check c4Vault none none [] 1 1 60 none
      ⟨100, emptyInvested, fracOfNat 100⟩ { c4Vault with last_fee_charge_timestamp := 1 }
      (fracOfNat 100) (0, 0, 0, 0) (by decide) (by rfl) (by rfl) (by rfl) (by decide)
      (by decide) (by rfl) (by decide) (by decide)).mp hcon) (by decide)

/-- `withdraw_disinvest` can only fail with the unwrap-panic outcome. -/
theorem withdraw_disinvest_error (h : Holdings) (reserve_addr reserve_rate : Option Nat)
    (owned : Option Nat) (total_for_user available_to_send : Nat) (e : VaultError)
    (hq : withdraw_disinvest h reserve_addr reserve_rate owned total_for_user
      available_to_send = .error e) : e = .unwrapAbort := by
  unfold withdraw_disinvest at hq
  split at hq
  · exact Except.noConfusion hq
  · split at hq
    · injection hq with h'
      exact h'.symm
    · split at hq
      · exact Except.noConfusion hq
      · split at hq
        · injection hq with h'
          exact h'.symm
        · exact Except.noConfusion hq

/-- C10: `is_allocated_to_reserve` compares the queried identity against every
allocation slot, the empty ones included, so on a vault with at least one empty
slot it accepts the all-zero sentinel identity; consequently a withdraw that
names the sentinel identity as its target reserve is never rejected with the
reserve-not-part-of-allocations error. -/
theorem C10_sentinel_reserve (v : VaultState)
    (hempty : ∃ a ∈ v.vault_allocation_strategy, a.reserve = 0) :
    is_allocated_to_reserve v 0 = true ∧
    ∀ (reserve_rate : Option Nat) (snaps : List ReserveSnap) (ts slot n : Nat)
      (owned : Option Nat),
      withdraw v (some 0) reserve_rate snaps ts slot n owned ≠
        .error .reserveNotPartOfAllocations := by
  have halloc : is_allocated_to_reserve v 0 = true := by
    obtain ⟨a, ha, hr⟩ := hempty
    unfold is_allocated_to_reserve
    rw [List.any_eq_true]
    exact ⟨a, ha, by simp [hr]⟩
  refine ⟨halloc, ?_⟩
  intro reserve_rate snaps ts slot n owned hcon
  unfold withdraw at hcon
  split at hcon
  · injection hcon with h'
    exact VaultError.noConfusion h'
  · rcases hh : holdings v snaps with e | h <;> rw [hh] at hcon <;>
      simp only [Except.bind] at hcon
    · injection hcon with h'
      subst h'
      rcases holdings_error v snaps _ hh with h1 | h1 | h1 <;> exact VaultError.noConfusion h1
    · rcases hc : charge_fees v h.invested ts with e | v1 <;> rw [hc] at hcon <;>
        simp only [Except.bind] at hcon
      · obtain ⟨v2, hv2⟩ := charge_fees_isOk v h.invested ts
        rw [hv2] at hc
        exact Except.noConfusion hc
      · rcases ha : compute_aum v1 h.invested.total with e | aum <;> rw [ha] at hcon <;>
          simp only [Except.bind] at hcon
        · injection hcon with h'
          subst h'
          exact VaultError.noConfusion (compute_aum_error _ _ _ ha)
        · split at hcon
          · injection hcon with h'
            exact VaultError.noConfusion h'
          · split at hcon
            · injection hcon with h'
              exact VaultError.noConfusion h'
            · split at hcon
              · next e heq =>
                injection hcon with h'
                subst h'
                exact VaultError.noConfusion
                  (withdraw_disinvest_error _ _ _ _ _ _ _ heq)
              · split at hcon
                · injection hcon with h'
                  exact VaultError.noConfusion h'
                · split at hcon
                  · injection hcon with h'
                    exact VaultError.noConfusion h'
                  · split at hcon
                    · injection hcon with h'
                      exact VaultError.noConfusion h'
                    · split at hcon
                      · next heq =>
                        have halloc1 : is_allocated_to_reserve v1 0 = true := by
                          unfold is_allocated_to_reserve at halloc ⊢
                          rw [charge_fees_strategy v h.invested ts v1 hc]
                          exact halloc
                        exact heq halloc1
                      · split at hcon
                        · next e heq2 =>
                          injection hcon with h'
                          subst h'
                          exact VaultError.noConfusion
                            (withdraw_from_vault_allocation_error _ _ _ _ heq2)
                        · exact Except.noConfusion hcon

/-- A vault with one empty allocation slot (and one live one), used for the C10
witness. -/
def c10Vault : VaultState :=
  { baseVault with
    token_available := 100
    shares_issued := 100
    vault_allocation_strategy :=
      [c8Alloc, { c8Alloc with reserve := 0, target_allocation_weight := 0 }] }

/-- C10 witness: the sentinel identity passes the membership test on a concrete
vault with an empty slot, and a concrete sentinel-targeted withdraw does not fail
with the reserve-not-part-of-allocations error. -/
theorem C10_witness :
    is_allocated_to_reserve c10Vault 0 = true ∧
    withdraw c10Vault (some 0) none [⟨1, false, F⟩] 1 1 50 none ≠
      .error .reserveNotPartOfAllocations := by
  have h := C10_sentinel_reserve c10Vault
    ⟨{ c8Alloc with reserve := 0, target_allocation_weight := 0 }, by decide, rfl⟩
  exact ⟨h.1, h.2 none [⟨1, false, F⟩] 1 1 50 none⟩

/-- `WithdrawPendingFeesEffects` from `operations/effects.rs`. -/
structure WithdrawPendingFeesEffects where
  available_to_send_to_user : Nat
  invested_to_disinvest_ctokens : Nat
  invested_liquidity_to_send_to_user : Nat
  invested_liquidity_to_disinvest : Nat
deriving Repr, DecidableEq

/-- `withdraw_pending_fees` from `vault_operations.rs` (lines 282-364): draw the
pending fees first from `available`, then from the named reserve; the collateral
to redeem is ceiled, the redeemed liquidity floored, and a 1-lamport rounding
adjustment is taken from the delivered amount whenever the redeemed liquidity has
a fractional part.  `pending_fees` is decremented by the floored available and
invested entitlements (not by the adjusted delivered amount).  The `unwrap` on the
invested entry models as `unwrapAbort`; accounting updates are merged in source
order. -/
def withdraw_pending_fees (v : VaultState) (reserve_addr rate : Nat)
    (snaps : List ReserveSnap) (current_slot current_timestamp : Nat) :
    Except VaultError (VaultState × WithdrawPendingFeesEffects) :=
  (holdings v snaps).bind fun h =>
  (charge_fees v h.invested current_timestamp).bind fun v1 =>
  match in_reserve h.invested reserve_addr with
  | none => .error .unwrapAbort
  | some inv_res =>
    let total_fees := v1.pending_fees_sf
    let available_to_send_f := min (fracOfNat h.available) total_fees
    let available_to_send := toFloor available_to_send_f
    let invested_to_send_f := min inv_res.liquidity_amount
      (total_fees - available_to_send_f)
    let invested_to_send := toFloor invested_to_send_f
    let ctokens := liquidity_to_collateral_ceil rate invested_to_send
    let disinvest_f := fraction_collateral_to_liquidity rate (fracOfNat ctokens)
    let disinvest := toFloor disinvest_f
    let rounding_adj := if 0 < fracPart disinvest_f then 1 else 0
    let actual := invested_to_send - rounding_adj
    (withdraw_from_vault_allocation
      { v1 with token_available :=
          v1.token_available - available_to_send + (disinvest - actual) }
      ctokens reserve_addr).bind fun v2 =>
    .ok ({ v2 with pending_fees_sf :=
            total_fees - fracOfNat available_to_send - fracOfNat invested_to_send },
         ⟨available_to_send, ctokens, actual, disinvest⟩)

theorem toCeil_zero : toCeil 0 = 0 := by decide

/-- C5 (amended): every successful `withdraw_pending_fees` decreases
`pending_fees` by the floored available and invested entitlements — that is, by
the delivered amounts reported in the effects plus the 1-lamport rounding
adjustment (`adj ≤ 1`) subtracted from the delivered invested liquidity, not by
the delivered value alone. -/
theorem C5_pending_fees_decrease (v : VaultState) (reserve_addr rate : Nat)
    (snaps : List ReserveSnap) (slot ts : Nat) (h : Holdings) (v1 v' : VaultState)
    (eff : WithdrawPendingFeesEffects)
    (hh : holdings v snaps = .ok h)
    (hc : charge_fees v h.invested ts = .ok v1)
    (hw : withdraw_pending_fees v reserve_addr rate snaps slot ts = .ok (v', eff)) :
    ∃ adj ≤ 1,
      v'.pending_fees_sf = v1.pending_fees_sf -
        fracOfNat eff.available_to_send_to_user -
        fracOfNat (eff.invested_liquidity_to_send_to_user + adj) := by
  unfold withdraw_pending_fees at hw
  rw [hh] at hw
  simp only [Except.bind] at hw
  rw [hc] at hw
  simp only [Except.bind] at hw
  split at hw
  · exact Except.noConfusion hw
  · next inv_res hir =>
    split at hw
    · exact Except.noConfusion hw
    · next v2 heq =>
      injection hw with hw'
      injection hw' with hv he
      subst he
      subst hv
      refine ⟨if 0 < fracPart (fraction_collateral_to_liquidity rate
          (fracOfNat (liquidity_to_collateral_ceil rate
            (toFloor (min inv_res.liquidity_amount
              (v1.pending_fees_sf - min (fracOfNat h.available) v1.pending_fees_sf))))))
        then 1 else 0, ?_, ?_⟩
      · split <;> simp
      · show v1.pending_fees_sf -
            fracOfNat (toFloor (min (fracOfNat h.available) v1.pending_fees_sf)) -
            fracOfNat (toFloor (min inv_res.liquidity_amount _)) = _
        congr 2
        set w := toFloor (min inv_res.liquidity_amount
          (v1.pending_fees_sf - min (fracOfNat h.available) v1.pending_fees_sf)) with hw_def
        split
        · next hfrac =>
          have hwpos : w ≠ 0 := by
            intro h0
            rw [h0] at hfrac
            have : liquidity_to_collateral_ceil rate 0 = 0 := by
              unfold liquidity_to_collateral_ceil
              rw [Nat.zero_mul]
              exact toCeil_zero
            rw [this] at hfrac
            have : fraction_collateral_to_liquidity rate (fracOfNat 0) = 0 := by
              unfold fraction_collateral_to_liquidity fracOfNat
              simp
            rw [this] at hfrac
            exact absurd hfrac (by decide)
          exact (Nat.sub_add_cancel (Nat.one_le_iff_ne_zero.mpr hwpos)).symm
        · rfl

/-- The allocation slot used in the C5 instances: reserve 7 holding 60 ctokens. -/
def c5Alloc : VaultAllocation :=
  { reserve := 7
    target_allocation_weight := 5
    token_allocation_cap := 1000
    ctoken_allocation := 60
    last_invest_slot := 0
    token_target_allocation_sf := 0 }

/-- The C5 vault: 10 tokens of pending fees, nothing available, fee clock
uninitialized (so accrual only stamps the clock), one reserve. -/
def c5Vault : VaultState :=
  { baseVault with
    pending_fees_sf := 10 * F
    vault_allocation_strategy := [c5Alloc] }

/-- The reserve snapshot for the C5 instances: exchange rate `3 + 2⁻⁶⁰`
(collateral per liquidity), chosen so that the redeemed liquidity has a
fractional part and the 1-lamport adjustment fires. -/
def c5Snap : ReserveSnap := ⟨7, false, 3 * F + 1⟩

/-- The post-state of the C5 call: 31 ctokens redeemed for 10 floored liquidity
units, 9 delivered, 1 kept, pending fees cleared. -/
def c5VaultAfter : VaultState :=
  { c5Vault with
    last_fee_charge_timestamp := 2
    token_available := 1
    vault_allocation_strategy := [{ c5Alloc with ctoken_allocation := 29 }]
    pending_fees_sf := 0 }

/-- C5 counterexample: the call delivers 0 + 9 units to the caller but clears the
full 10 units of pending fees — `pending_fees` does not decrease by the delivered
amount reported in the effects. -/
theorem C5_counterexample :
    withdraw_pending_fees c5Vault 7 (3 * F + 1) [c5Snap] 1 2 =
      .ok (c5VaultAfter, ⟨0, 31, 9, 10⟩) ∧
    c5VaultAfter.pending_fees_sf ≠
      c5Vault.pending_fees_sf - fracOfNat (0 + 9) := by
  constructor
  · rfl
  · decide

/-- C5 witness: the amended equation at the concrete C5 instance (the adjustment
is 1 there: pending fees drop by `9 + 1` invested units). -/
theorem C5_witness :
    ∃ adj ≤ 1, c5VaultAfter.pending_fees_sf =
      ({ c5Vault with last_fee_charge_timestamp := 2 } : VaultState).pending_fees_sf -
        fracOfNat (0 : Nat) - fracOfNat (9 + adj) :=
  C5_pending_fees_decrease c5Vault 7 (3 * F + 1) [c5Snap] 1 2
    ⟨0, ⟨[invested_entry c5Alloc c5Snap],
         (invested_entry c5Alloc c5Snap).liquidity_amount + 0⟩,
     fracOfNat 0 + ((invested_entry c5Alloc c5Snap).liquidity_amount + 0)⟩
    { c5Vault with last_fee_charge_timestamp := 2 } c5VaultAfter ⟨0, 31, 9, 10⟩
    (by rfl) (by rfl) (by rfl)

/-- The new target of one allocation slot in one distribution pass of
`refresh_target_allocations`: a slot in the filter (live and strictly below its
cap) receives `loop_total * weight / loop_weight`; if that would meet or exceed
its cap it is pinned at the cap.  Slots outside the filter are unchanged. -/
def pass_target (P W : Nat) (a : VaultAllocation) (tgt : Nat) : Nat :=
  if a.reserve ≠ 0 ∧ tgt < fracOfNat a.token_allocation_cap then
    if fracOfNat a.token_allocation_cap ≤
        mulIntDiv P a.target_allocation_weight W + tgt then
      fracOfNat a.token_allocation_cap
    else tgt + mulIntDiv P a.target_allocation_weight W
  else tgt

/-- One pass of the distribution loop of `VaultState::refresh_target_allocations`
(lines 329-361): walk the zipped (slot, invested, running target) triples; for
every filtered slot check the slot/invested identity match, compute the
proportional share from the pass-start snapshots `P` (`loop_total_tokens`) and `W`
(`loop_weight`), pin at the cap (removing the weight and flagging
`a_cap_was_reached`) or add the share.  Threads `remaining_tokens_to_allocate`,
`remaining_weight_to_allocate` and the flag; returns the updated targets. -/
def alloc_pass (P W : Nat) :
    List ((VaultAllocation × InvestedReserve) × Nat) → Nat → Nat → Bool →
      Except VaultError (List Nat × Nat × Nat × Bool)
  | [], remT, remW, cr => .ok ([], remT, remW, cr)
  | ((a, inv), tgt) :: rest, remT, remW, cr =>
    if a.reserve ≠ 0 ∧ tgt < fracOfNat a.token_allocation_cap then
      if a.reserve ≠ inv.reserve then .error .reserveNotPartOfAllocations
      else
        if fracOfNat a.token_allocation_cap ≤
            mulIntDiv P a.target_allocation_weight W + tgt then
          (alloc_pass P W rest (remT - (fracOfNat a.token_allocation_cap - tgt))
              (remW - a.target_allocation_weight) true).bind fun r =>
            .ok (fracOfNat a.token_allocation_cap :: r.1, r.2)
        else
          (alloc_pass P W rest (remT - mulIntDiv P a.target_allocation_weight W)
              remW cr).bind fun r =>
            .ok ((tgt + mulIntDiv P a.target_allocation_weight W) :: r.1, r.2)
    else
      (alloc_pass P W rest remT remW cr).bind fun r => .ok (tgt :: r.1, r.2)

/-- The `while` loop of `refresh_target_allocations` (lines 325-366): run passes
while tokens and weight remain; stop when a pass pins no new cap.  The source loop
needs no fuel — every continuing pass pins at least one previously unpinned
reserve (a pinned reserve has weight ≥ 1, since a weight-0 reserve's share is 0
and cannot newly reach its cap), so at most `slots + 1` passes run; the fuel
passed by `refresh_target_allocations` is `slots + 1`, which is never
exhausted. -/
def alloc_loop (entries : List (VaultAllocation × InvestedReserve)) :
    Nat → List Nat → Nat → Nat → Except VaultError (List Nat)
  | 0, tgts, _, _ => .ok tgts
  | fuel + 1, tgts, remT, remW =>
    if 0 < remT ∧ 0 < remW then
      (alloc_pass remT remW (entries.zip tgts) remT remW false).bind fun r =>
        if r.2.2.2 then alloc_loop entries fuel r.1 r.2.1 r.2.2.1 else .ok r.1
    else .ok tgts

/-- The weight denominator of `refresh_target_allocations`: the summed weight of
live slots with a positive cap (the unallocated weight is handled separately). -/
def taw_list (slots : List VaultAllocation) : Nat :=
  ((slots.filter (fun r => r.reserve != 0 && decide (0 < r.token_allocation_cap))).map
    (fun r => r.target_allocation_weight)).sum

/-- `total_weight` as computed by `VaultState::refresh_target_allocations`. -/
def total_alloc_weight (v : VaultState) : Nat :=
  taw_list v.vault_allocation_strategy

/-- The tokens reserved as unallocated before distribution (lines 306-319):
`total * unallocated_weight / (total_weight + unallocated_weight)`, capped at
`unallocated_tokens_cap` (0 meaning `u64::MAX`); zero when the unallocated weight
is zero. -/
def unallocated_target (v : VaultState) (total_tokens total_weight : Nat) : Nat :=
  if 0 < v.unallocated_weight then
    min (mulIntDiv total_tokens v.unallocated_weight
          (total_weight + v.unallocated_weight))
      (fracOfNat (if v.unallocated_tokens_cap = 0 then U64MAX
                  else v.unallocated_tokens_cap))
  else 0

/-- `VaultState::refresh_target_allocations` (state.rs lines 293-403): compute the
AUM, carve out the unallocated target, run the proportional-with-caps
water-filling loop over the slots zipped positionally with the invested entries
(both are 25-slot arrays on chain, so the zips align), and write the resulting
targets back into the live slots. -/
def refresh_target_allocations (v : VaultState) (invested : Invested) :
    Except VaultError VaultState :=
  (compute_aum v invested.total).bind fun total_tokens =>
  (alloc_loop (v.vault_allocation_strategy.zip invested.allocations)
      (v.vault_allocation_strategy.length + 1)
      (v.vault_allocation_strategy.map fun _ => 0)
      (total_tokens - unallocated_target v total_tokens (total_alloc_weight v))
      (total_alloc_weight v)).bind fun tgts =>
  .ok { v with vault_allocation_strategy :=
        (v.vault_allocation_strategy.zip tgts).map fun p =>
          if p.1.reserve ≠ 0 then { p.1 with token_target_allocation_sf := p.2 }
          else p.1 }

/-- An all-zero allocation slot, used as a `getD` fallback. -/
def dummy_alloc : VaultAllocation :=
  { reserve := 0, target_allocation_weight := 0, token_allocation_cap := 0,
    ctoken_allocation := 0, last_invest_slot := 0, token_target_allocation_sf := 0 }

/-- An all-zero invested entry, used as a `getD` fallback. -/
def dummy_inv : InvestedReserve := ⟨0, 0, 0, 0⟩

/-- The summed weight of the entries a pass distributes to (live and strictly
below cap at their current running target). -/
def active_weight : List ((VaultAllocation × InvestedReserve) × Nat) → Nat
  | [] => 0
  | ((a, _), tgt) :: rest =>
    (if a.reserve ≠ 0 ∧ tgt < fracOfNat a.token_allocation_cap
     then a.target_allocation_weight else 0) + active_weight rest

/-- The tokens a pass with snapshots `P`, `W` removes from the remaining pool. -/
def pass_spend (P W : Nat) : List ((VaultAllocation × InvestedReserve) × Nat) → Nat
  | [] => 0
  | ((a, _), tgt) :: rest =>
    (if a.reserve ≠ 0 ∧ tgt < fracOfNat a.token_allocation_cap then
      if fracOfNat a.token_allocation_cap ≤
          mulIntDiv P a.target_allocation_weight W + tgt then
        fracOfNat a.token_allocation_cap - tgt
      else mulIntDiv P a.target_allocation_weight W
     else 0) + pass_spend P W rest

/-- The weight a pass removes from the remaining weight (newly pinned slots). -/
def pass_pinw (P W : Nat) : List ((VaultAllocation × InvestedReserve) × Nat) → Nat
  | [] => 0
  | ((a, _), tgt) :: rest =>
    (if (a.reserve ≠ 0 ∧ tgt < fracOfNat a.token_allocation_cap) ∧
        fracOfNat a.token_allocation_cap ≤
          mulIntDiv P a.target_allocation_weight W + tgt
     then a.target_allocation_weight else 0) + pass_pinw P W rest

/-- Whether a pass pins some new slot at its cap (`a_cap_was_reached`). -/
def pass_flag (P W : Nat) : List ((VaultAllocation × InvestedReserve) × Nat) → Bool
  | [] => false
  | ((a, _), tgt) :: rest =>
    (decide ((a.reserve ≠ 0 ∧ tgt < fracOfNat a.token_allocation_cap) ∧
        fracOfNat a.token_allocation_cap ≤
          mulIntDiv P a.target_allocation_weight W + tgt)) || pass_flag P W rest

theorem alloc_pass_nil (P W remT remW : Nat) (cr : Bool) :
    alloc_pass P W [] remT remW cr = .ok ([], remT, remW, cr) := rfl

theorem alloc_pass_cons (P W : Nat) (a : VaultAllocation) (inv : InvestedReserve)
    (tgt : Nat) (rest : List ((VaultAllocation × InvestedReserve) × Nat))
    (remT remW : Nat) (cr : Bool) :
    alloc_pass P W (((a, inv), tgt) :: rest) remT remW cr =
      if a.reserve ≠ 0 ∧ tgt < fracOfNat a.token_allocation_cap then
        if a.reserve ≠ inv.reserve then .error .reserveNotPartOfAllocations
        else
          if fracOfNat a.token_allocation_cap ≤
              mulIntDiv P a.target_allocation_weight W + tgt then
            (alloc_pass P W rest (remT - (fracOfNat a.token_allocation_cap - tgt))
                (remW - a.target_allocation_weight) true).bind fun r =>
              .ok (fracOfNat a.token_allocation_cap :: r.1, r.2)
          else
            (alloc_pass P W rest (remT - mulIntDiv P a.target_allocation_weight W)
                remW cr).bind fun r =>
              .ok ((tgt + mulIntDiv P a.target_allocation_weight W) :: r.1, r.2)
      else
        (alloc_pass P W rest remT remW cr).bind fun r => .ok (tgt :: r.1, r.2) := rfl

/-- Full characterization of a successful pass: the new targets are the pointwise
`pass_target`s, the pool and weight drop by `pass_spend`/`pass_pinw`, and the
flag records whether any slot was newly pinned. -/
theorem alloc_pass_eq (P W : Nat)
    (l : List ((VaultAllocation × InvestedReserve) × Nat)) :
    ∀ (remT remW : Nat) (cr : Bool) (r : List Nat × Nat × Nat × Bool),
    alloc_pass P W l remT remW cr = .ok r →
    r = (l.map (fun et => pass_target P W et.1.1 et.2),
         remT - pass_spend P W l, remW - pass_pinw P W l,
         cr || pass_flag P W l) := by
  induction l with
  | nil =>
    intro remT remW cr r hok
    rw [alloc_pass_nil] at hok
    injection hok with h'
    subst h'
    simp [pass_spend, pass_pinw, pass_flag]
  | cons head rest ih =>
    obtain ⟨⟨a, inv⟩, tgt⟩ := head
    intro remT remW cr r hok
    rw [alloc_pass_cons] at hok
    split at hok
    · next hactive =>
      split at hok
      · exact Except.noConfusion hok
      · split at hok
        · next hcap =>
          rcases hrec : alloc_pass P W rest
              (remT - (fracOfNat a.token_allocation_cap - tgt))
              (remW - a.target_allocation_weight) true with e | r' <;>
            rw [hrec] at hok <;> simp only [Except.bind] at hok
          · exact Except.noConfusion hok
          · injection hok with h'
            subst h'
            have hr' := ih _ _ _ _ hrec
            rw [hr']
            simp only [List.map_cons, pass_spend, pass_pinw, pass_flag,
              if_pos hactive, if_pos hcap, if_pos (And.intro hactive hcap),
              decide_eq_true (And.intro hactive hcap), Bool.true_or, Bool.or_true,
              Prod.mk.injEq]
            refine ⟨?_, ?_, ?_, ?_⟩
            · show fracOfNat a.token_allocation_cap :: _ = pass_target P W a tgt :: _
              rw [pass_target, if_pos hactive, if_pos hcap]
            · rw [Nat.sub_sub]
            · rw [Nat.sub_sub]
            · exact trivial
        · next hcap =>
          rcases hrec : alloc_pass P W rest
              (remT - mulIntDiv P a.target_allocation_weight W) remW cr with e | r' <;>
            rw [hrec] at hok <;> simp only [Except.bind] at hok
          · exact Except.noConfusion hok
          · injection hok with h'
            subst h'
            have hr' := ih _ _ _ _ hrec
            rw [hr']
            have hnp : ¬((a.reserve ≠ 0 ∧ tgt < fracOfNat a.token_allocation_cap) ∧
                fracOfNat a.token_allocation_cap ≤
                  mulIntDiv P a.target_allocation_weight W + tgt) :=
              fun hc => hcap hc.2
            simp only [List.map_cons, pass_spend, pass_pinw, pass_flag,
              if_pos hactive, if_neg hcap, if_neg hnp, decide_eq_false hnp,
              Bool.false_or, Prod.mk.injEq]
            refine ⟨?_, ?_, ?_, ?_⟩
            · show (tgt + _) :: _ = pass_target P W a tgt :: _
              rw [pass_target, if_pos hactive, if_neg hcap]
            · rw [Nat.sub_sub]
            · rw [Nat.zero_add]
            · exact trivial
    · next hactive =>
      rcases hrec : alloc_pass P W rest remT remW cr with e | r' <;>
        rw [hrec] at hok <;> simp only [Except.bind] at hok
      · exact Except.noConfusion hok
      · injection hok with h'
        subst h'
        have hr' := ih _ _ _ _ hrec
        rw [hr']
        have hnp : ¬((a.reserve ≠ 0 ∧ tgt < fracOfNat a.token_allocation_cap) ∧
            fracOfNat a.token_allocation_cap ≤
              mulIntDiv P a.target_allocation_weight W + tgt) :=
          fun hc => hactive hc.1
        simp only [List.map_cons, pass_spend, pass_pinw, pass_flag,
          if_neg hactive, if_neg hnp, decide_eq_false hnp, Bool.false_or,
          Prod.mk.injEq]
        refine ⟨?_, ?_, ?_, ?_⟩
        · show tgt :: _ = pass_target P W a tgt :: _
          rw [pass_target, if_neg hactive]
        · rw [Nat.zero_add]
        · rw [Nat.zero_add]
        · exact trivial

theorem pass_target_le_cap (P W : Nat) (a : VaultAllocation) (t : Nat)
    (h : t ≤ fracOfNat a.token_allocation_cap) :
    pass_target P W a t ≤ fracOfNat a.token_allocation_cap := by
  unfold pass_target
  split
  · split
    · exact le_rfl
    · next hcap =>
      have := Nat.lt_of_not_le hcap
      omega
  · exact h

theorem le_pass_target (P W : Nat) (a : VaultAllocation) (t : Nat) :
    t ≤ pass_target P W a t := by
  unfold pass_target
  split
  · next hact =>
    split
    · exact Nat.le_of_lt hact.2
    · exact Nat.le_add_right t _
  · exact le_rfl

theorem pass_target_below (P W : Nat) (a : VaultAllocation) (t : Nat)
    (hr : a.reserve ≠ 0)
    (hlt : pass_target P W a t < fracOfNat a.token_allocation_cap) :
    t < fracOfNat a.token_allocation_cap ∧
      pass_target P W a t = t + mulIntDiv P a.target_allocation_weight W := by
  by_cases hact : a.reserve ≠ 0 ∧ t < fracOfNat a.token_allocation_cap
  · by_cases hcap : fracOfNat a.token_allocation_cap ≤
        mulIntDiv P a.target_allocation_weight W + t
    · rw [pass_target, if_pos hact, if_pos hcap] at hlt
      exact absurd hlt (lt_irrefl _)
    · rw [pass_target, if_pos hact, if_neg hcap]
      exact ⟨hact.2, rfl⟩
  · rw [pass_target, if_neg hact] at hlt
    exact absurd (And.intro hr hlt) hact

theorem div_add_div_le (a b c : Nat) : a / c + b / c ≤ (a + b) / c := by
  rcases Nat.eq_zero_or_pos c with hc | hc
  · subst hc
    simp
  · rw [Nat.le_div_iff_mul_le hc, Nat.add_mul]
    exact Nat.add_le_add (Nat.div_mul_le_self a c) (Nat.div_mul_le_self b c)

theorem lt_div_succ_mul (a b : Nat) (hb : 0 < b) : a < (a / b + 1) * b := by
  have h := Nat.div_add_mod a b
  have h2 := Nat.mod_lt a hb
  calc a = b * (a / b) + a % b := h.symm
  _ < b * (a / b) + b := by omega
  _ = (a / b + 1) * b := by ring

/-- The per-pass pairwise proportionality bound: the floored shares
`P * w / W` of two weights differ from exact proportionality by less than one
quantum per unit weight. -/
theorem pair_div_bound (P W wi wj : Nat) :
    wj * (P * wi / W) ≤ wi * (P * wj / W) + wi := by
  rcases Nat.eq_zero_or_pos W with hW | hW
  · subst hW
    simp
  · rcases Nat.eq_zero_or_pos wi with hwi | hwi
    · subst hwi
      simp
    · have h1 : wj * (P * wi / W) * W ≤ wi * (P * wj) := by
        rw [Nat.mul_assoc]
        calc wj * (P * wi / W * W) ≤ wj * (P * wi) :=
              Nat.mul_le_mul_left _ (Nat.div_mul_le_self _ _)
        _ = wi * (P * wj) := by ring
      have h2 : wi * (P * wj) < (wi * (P * wj / W) + wi) * W := by
        calc wi * (P * wj) < wi * ((P * wj / W + 1) * W) :=
              (Nat.mul_lt_mul_left hwi).mpr (lt_div_succ_mul _ _ hW)
        _ = (wi * (P * wj / W) + wi) * W := by ring
      exact Nat.le_of_lt
        (lt_of_mul_lt_mul_right (Nat.lt_of_le_of_lt h1 h2) (Nat.zero_le W))

/-- Per-pass spend is at most the proportional share of the active weight. -/
theorem pass_spend_le_div (P W : Nat)
    (l : List ((VaultAllocation × InvestedReserve) × Nat)) :
    pass_spend P W l ≤ P * active_weight l / W := by
  induction l with
  | nil => exact Nat.zero_le _
  | cons head rest ih =>
    obtain ⟨⟨a, inv⟩, tgt⟩ := head
    rw [pass_spend, active_weight]
    by_cases hact : a.reserve ≠ 0 ∧ tgt < fracOfNat a.token_allocation_cap
    · simp only [if_pos hact]
      have hstep : (if fracOfNat a.token_allocation_cap ≤
            mulIntDiv P a.target_allocation_weight W + tgt then
          fracOfNat a.token_allocation_cap - tgt
        else mulIntDiv P a.target_allocation_weight W) ≤
          mulIntDiv P a.target_allocation_weight W := by
        split
        · next hcap => omega
        · exact le_rfl
      calc _ ≤ mulIntDiv P a.target_allocation_weight W +
            P * active_weight rest / W := Nat.add_le_add hstep ih
      _ ≤ (P * a.target_allocation_weight + P * active_weight rest) / W := by
          unfold mulIntDiv
          exact div_add_div_le _ _ _
      _ = P * (a.target_allocation_weight + active_weight rest) / W := by
          rw [Nat.mul_add]
    · simp only [if_neg hact, Nat.zero_add]
      exact ih

/-- `pass_spend` never exceeds the pool when the active weight is within the
denominator snapshot. -/
theorem pass_spend_le (P W : Nat)
    (l : List ((VaultAllocation × InvestedReserve) × Nat))
    (hw : active_weight l ≤ W) : pass_spend P W l ≤ P := by
  rcases Nat.eq_zero_or_pos W with hW | hW
  · subst hW
    have h0 := pass_spend_le_div P 0 l
    rw [Nat.div_zero] at h0
    omega
  · calc pass_spend P W l ≤ P * active_weight l / W := pass_spend_le_div P W l
    _ ≤ P * W / W := Nat.div_le_div_right (Nat.mul_le_mul_left _ hw)
    _ = P := Nat.mul_div_cancel P hW

/-- Newly pinned weight is part of the active weight. -/
theorem pass_pinw_le (P W : Nat)
    (l : List ((VaultAllocation × InvestedReserve) × Nat)) :
    pass_pinw P W l ≤ active_weight l := by
  induction l with
  | nil => exact le_rfl
  | cons head rest ih =>
    obtain ⟨⟨a, inv⟩, tgt⟩ := head
    rw [pass_pinw, active_weight]
    refine Nat.add_le_add ?_ ih
    split
    · next hpin => rw [if_pos hpin.1]
    · exact Nat.zero_le _

/-- Pass weight ledger: the active weight after a pass plus the newly pinned
weight equals the active weight before. -/
theorem pass_weight_ledger (P W : Nat)
    (l : List ((VaultAllocation × InvestedReserve) × Nat)) :
    active_weight (l.map (fun et => (et.1, pass_target P W et.1.1 et.2))) +
      pass_pinw P W l = active_weight l := by
  induction l with
  | nil => rfl
  | cons head rest ih =>
    obtain ⟨⟨a, inv⟩, tgt⟩ := head
    rw [List.map_cons, active_weight, active_weight, pass_pinw]
    by_cases hact : a.reserve ≠ 0 ∧ tgt < fracOfNat a.token_allocation_cap
    · by_cases hcap : fracOfNat a.token_allocation_cap ≤
          mulIntDiv P a.target_allocation_weight W + tgt
      · have hout : ¬(a.reserve ≠ 0 ∧ pass_target P W a tgt <
            fracOfNat a.token_allocation_cap) := by
          rw [pass_target, if_pos hact, if_pos hcap]
          exact fun hc => absurd hc.2 (lt_irrefl _)
        rw [if_neg hout, if_pos (And.intro hact hcap), if_pos hact]
        omega
      · have hout : a.reserve ≠ 0 ∧ pass_target P W a tgt <
            fracOfNat a.token_allocation_cap := by
          rw [pass_target, if_pos hact, if_neg hcap]
          exact ⟨hact.1, Nat.lt_of_not_le (by omega)⟩
        rw [if_pos hout, if_neg (fun hc => hcap hc.2), if_pos hact]
        omega
    · have hout : ¬(a.reserve ≠ 0 ∧ pass_target P W a tgt <
          fracOfNat a.token_allocation_cap) := by
        rw [pass_target, if_neg hact]
        exact hact
      rw [if_neg hout, if_neg (fun hc => hact hc.1), if_neg hact]
      omega

/-- Pass token ledger: the new targets sum to the old targets plus the spend. -/
theorem pass_sum_ledger (P W : Nat)
    (l : List ((VaultAllocation × InvestedReserve) × Nat)) :
    (l.map (fun et => pass_target P W et.1.1 et.2)).sum =
      (l.map (fun et => et.2)).sum + pass_spend P W l := by
  induction l with
  | nil => rfl
  | cons head rest ih =>
    obtain ⟨⟨a, inv⟩, tgt⟩ := head
    rw [List.map_cons, List.map_cons, List.sum_cons, List.sum_cons, pass_spend, ih]
    dsimp only
    by_cases hact : a.reserve ≠ 0 ∧ tgt < fracOfNat a.token_allocation_cap
    · by_cases hcap : fracOfNat a.token_allocation_cap ≤
          mulIntDiv P a.target_allocation_weight W + tgt
      · rw [pass_target, if_pos hact, if_pos hcap, if_pos hact, if_pos hcap]
        have := hact.2
        omega
      · rw [pass_target, if_pos hact, if_neg hcap, if_pos hact, if_neg hcap]
        omega
    · rw [pass_target, if_neg hact, if_neg hact]
      omega

theorem getD_map_lt {α β : Type} (f : α → β) (l : List α) (i : Nat) (d : β)
    (d' : α) (h : i < l.length) : (l.map f).getD i d = f (l.getD i d') := by
  induction l generalizing i with
  | nil => cases h
  | cons x xs ih =>
    cases i with
    | zero => rfl
    | succ k => exact ih k (Nat.lt_of_succ_lt_succ h)

theorem getD_zip_lt {α β : Type} (l₁ : List α) (l₂ : List β) (i : Nat)
    (d₁ : α) (d₂ : β) (h1 : i < l₁.length) (h2 : i < l₂.length) :
    (l₁.zip l₂).getD i (d₁, d₂) = (l₁.getD i d₁, l₂.getD i d₂) := by
  induction l₁ generalizing l₂ i with
  | nil => cases h1
  | cons x xs ih =>
    cases l₂ with
    | nil => cases h2
    | cons y ys =>
      cases i with
      | zero => rfl
      | succ k => exact ih ys k (Nat.lt_of_succ_lt_succ h1) (Nat.lt_of_succ_lt_succ h2)

theorem zip_map_pass {γ : Type} (entries : List γ) (tgts : List Nat)
    (f : γ × Nat → Nat) :
    entries.zip ((entries.zip tgts).map f) =
      (entries.zip tgts).map (fun p => (p.1, f p)) := by
  induction entries generalizing tgts with
  | nil => rfl
  | cons e es ih =>
    cases tgts with
    | nil => rfl
    | cons t ts =>
      rw [List.zip_cons_cons, List.map_cons, List.map_cons, List.zip_cons_cons, ih]

theorem zip_map_snd (entries : List (VaultAllocation × InvestedReserve))
    (tgts : List Nat) (hlen : tgts.length = entries.length) :
    (entries.zip tgts).map (fun et => et.2) = tgts := by
  induction entries generalizing tgts with
  | nil =>
    cases tgts with
    | nil => rfl
    | cons t ts => cases hlen
  | cons e es ih =>
    cases tgts with
    | nil => cases hlen
    | cons t ts =>
      rw [List.zip_cons_cons, List.map_cons, ih ts (Nat.succ_injective hlen)]

theorem alloc_loop_zero (entries : List (VaultAllocation × InvestedReserve))
    (tgts : List Nat) (remT remW : Nat) :
    alloc_loop entries 0 tgts remT remW = .ok tgts := rfl

theorem alloc_loop_succ (entries : List (VaultAllocation × InvestedReserve))
    (fuel : Nat) (tgts : List Nat) (remT remW : Nat) :
    alloc_loop entries (fuel + 1) tgts remT remW =
      if 0 < remT ∧ 0 < remW then
        (alloc_pass remT remW (entries.zip tgts) remT remW false).bind fun r =>
          if r.2.2.2 then alloc_loop entries fuel r.1 r.2.1 r.2.2.1 else .ok r.1
      else .ok tgts := rfl

/-- The loop preserves the length of the target list. -/
theorem alloc_loop_length (entries : List (VaultAllocation × InvestedReserve))
    (fuel : Nat) :
    ∀ (tgts : List Nat) (remT remW : Nat) (out : List Nat),
    alloc_loop entries fuel tgts remT remW = .ok out →
    tgts.length = entries.length → out.length = entries.length := by
  induction fuel with
  | zero =>
    intro tgts remT remW out hok hlen
    rw [alloc_loop_zero] at hok
    injection hok with h'
    subst h'
    exact hlen
  | succ fuel ih =>
    intro tgts remT remW out hok hlen
    rw [alloc_loop_succ] at hok
    split at hok
    · rcases hp : alloc_pass remT remW (entries.zip tgts) remT remW false
          with e | r <;> rw [hp] at hok <;> simp only [Except.bind] at hok
      · exact Except.noConfusion hok
      · obtain rfl := alloc_pass_eq _ _ _ _ _ _ _ hp
        dsimp only at hok
        have hlen1 : ((entries.zip tgts).map
            (fun et => pass_target remT remW et.1.1 et.2)).length = entries.length := by
          simp [List.length_zip, hlen]
        split at hok
        · exact ih _ _ _ _ hok hlen1
        · injection hok with h'
          subst h'
          exact hlen1
    · injection hok with h'
      subst h'
      exact hlen

/-- The loop only increases targets. -/
theorem alloc_loop_mono (entries : List (VaultAllocation × InvestedReserve))
    (fuel : Nat) :
    ∀ (tgts : List Nat) (remT remW : Nat) (out : List Nat),
    alloc_loop entries fuel tgts remT remW = .ok out →
    tgts.length = entries.length →
    ∀ i, i < entries.length → tgts.getD i 0 ≤ out.getD i 0 := by
  induction fuel with
  | zero =>
    intro tgts remT remW out hok hlen i hi
    rw [alloc_loop_zero] at hok
    injection hok with h'
    subst h'
    exact le_rfl
  | succ fuel ih =>
    intro tgts remT remW out hok hlen i hi
    rw [alloc_loop_succ] at hok
    split at hok
    · rcases hp : alloc_pass remT remW (entries.zip tgts) remT remW false
          with e | r <;> rw [hp] at hok <;> simp only [Except.bind] at hok
      · exact Except.noConfusion hok
      · obtain rfl := alloc_pass_eq _ _ _ _ _ _ _ hp
        dsimp only at hok
        have hmid : ((entries.zip tgts).map
              (fun et => pass_target remT remW et.1.1 et.2)).getD i 0 =
            pass_target remT remW (entries.getD i (dummy_alloc, dummy_inv)).1
              (tgts.getD i 0) := by
          rw [getD_map_lt _ _ i 0 ((dummy_alloc, dummy_inv), 0)
            (by rw [List.length_zip, hlen, Nat.min_self]; exact hi)]
          rw [getD_zip_lt entries tgts i (dummy_alloc, dummy_inv) 0 hi (hlen ▸ hi)]
        have hlen1 : ((entries.zip tgts).map
            (fun et => pass_target remT remW et.1.1 et.2)).length = entries.length := by
          simp [List.length_zip, hlen]
        split at hok
        · have h1 : tgts.getD i 0 ≤ pass_target remT remW
              (entries.getD i (dummy_alloc, dummy_inv)).1 (tgts.getD i 0) :=
            le_pass_target _ _ _ _
          have h2 := ih _ _ _ _ hok hlen1 i hi
          rw [hmid] at h2
          omega
        · injection hok with h'
          subst h'
          rw [hmid]
          exact le_pass_target _ _ _ _
    · injection hok with h'
      subst h'
      exact le_rfl

/-- The loop keeps every target at or below its slot's cap. -/
theorem alloc_loop_caps (entries : List (VaultAllocation × InvestedReserve))
    (fuel : Nat) :
    ∀ (tgts : List Nat) (remT remW : Nat) (out : List Nat),
    alloc_loop entries fuel tgts remT remW = .ok out →
    tgts.length = entries.length →
    (∀ i, i < entries.length → tgts.getD i 0 ≤
      fracOfNat (entries.getD i (dummy_alloc, dummy_inv)).1.token_allocation_cap) →
    ∀ i, i < entries.length → out.getD i 0 ≤
      fracOfNat (entries.getD i (dummy_alloc, dummy_inv)).1.token_allocation_cap := by
  induction fuel with
  | zero =>
    intro tgts remT remW out hok hlen hcap i hi
    rw [alloc_loop_zero] at hok
    injection hok with h'
    subst h'
    exact hcap i hi
  | succ fuel ih =>
    intro tgts remT remW out hok hlen hcap i hi
    rw [alloc_loop_succ] at hok
    split at hok
    · rcases hp : alloc_pass remT remW (entries.zip tgts) remT remW false
          with e | r <;> rw [hp] at hok <;> simp only [Except.bind] at hok
      · exact Except.noConfusion hok
      · obtain rfl := alloc_pass_eq _ _ _ _ _ _ _ hp
        dsimp only at hok
        have hmid : ∀ k, k < entries.length → ((entries.zip tgts).map
              (fun et => pass_target remT remW et.1.1 et.2)).getD k 0 =
            pass_target remT remW (entries.getD k (dummy_alloc, dummy_inv)).1
              (tgts.getD k 0) := by
          intro k hk
          rw [getD_map_lt _ _ k 0 ((dummy_alloc, dummy_inv), 0)
            (by rw [List.length_zip, hlen, Nat.min_self]; exact hk)]
          rw [getD_zip_lt entries tgts k (dummy_alloc, dummy_inv) 0 hk (hlen ▸ hk)]
        have hlen1 : ((entries.zip tgts).map
            (fun et => pass_target remT remW et.1.1 et.2)).length = entries.length := by
          simp [List.length_zip, hlen]
        have hcap1 : ∀ k, k < entries.length → ((entries.zip tgts).map
              (fun et => pass_target remT remW et.1.1 et.2)).getD k 0 ≤
            fracOfNat (entries.getD k (dummy_alloc, dummy_inv)).1.token_allocation_cap := by
          intro k hk
          rw [hmid k hk]
          exact pass_target_le_cap _ _ _ _ (hcap k hk)
        split at hok
        · exact ih _ _ _ _ hok hlen1 hcap1 i hi
        · injection hok with h'
          subst h'
          exact hcap1 i hi
    · injection hok with h'
      subst h'
      exact hcap i hi

/-- The loop distributes at most the remaining pool: the final target sum is
bounded by the initial sum plus the pool. -/
theorem alloc_loop_sum (entries : List (VaultAllocation × InvestedReserve))
    (fuel : Nat) :
    ∀ (tgts : List Nat) (remT remW : Nat) (out : List Nat),
    alloc_loop entries fuel tgts remT remW = .ok out →
    tgts.length = entries.length →
    active_weight (entries.zip tgts) ≤ remW →
    out.sum ≤ tgts.sum + remT := by
  induction fuel with
  | zero =>
    intro tgts remT remW out hok hlen hw
    rw [alloc_loop_zero] at hok
    injection hok with h'
    subst h'
    exact Nat.le_add_right _ _
  | succ fuel ih =>
    intro tgts remT remW out hok hlen hw
    rw [alloc_loop_succ] at hok
    split at hok
    · rcases hp : alloc_pass remT remW (entries.zip tgts) remT remW false
          with e | r <;> rw [hp] at hok <;> simp only [Except.bind] at hok
      · exact Except.noConfusion hok
      · obtain rfl := alloc_pass_eq _ _ _ _ _ _ _ hp
        dsimp only at hok
        have hspend : pass_spend remT remW (entries.zip tgts) ≤ remT :=
          pass_spend_le _ _ _ hw
        have hsum1 : ((entries.zip tgts).map
            (fun et => pass_target remT remW et.1.1 et.2)).sum =
            tgts.sum + pass_spend remT remW (entries.zip tgts) := by
          rw [pass_sum_ledger, zip_map_snd entries tgts hlen]
        have hlen1 : ((entries.zip tgts).map
            (fun et => pass_target remT remW et.1.1 et.2)).length = entries.length := by
          simp [List.length_zip, hlen]
        split at hok
        · have hw1 : active_weight (entries.zip ((entries.zip tgts).map
              (fun et => pass_target remT remW et.1.1 et.2))) ≤
              remW - pass_pinw remT remW (entries.zip tgts) := by
            rw [zip_map_pass]
            have hledger := pass_weight_ledger remT remW (entries.zip tgts)
            have hpinw := pass_pinw_le remT remW (entries.zip tgts)
            omega
          have := ih _ _ _ _ hok hlen1 hw1
          omega
        · injection hok with h'
          subst h'
          omega
    · injection hok with h'
      subst h'
      exact Nat.le_add_right _ _

/-- The loop keeps the targets of two slots that end strictly below their caps
proportional to their weights up to one fixed-point quantum per unit weight per
pass: `wj * out_i` exceeds `wi * out_j` by at most `fuel * wi` beyond the initial
imbalance. -/
theorem alloc_loop_pair (entries : List (VaultAllocation × InvestedReserve))
    (fuel : Nat) :
    ∀ (tgts : List Nat) (remT remW : Nat) (out : List Nat),
    alloc_loop entries fuel tgts remT remW = .ok out →
    tgts.length = entries.length →
    ∀ i j, i < entries.length → j < entries.length →
    (entries.getD i (dummy_alloc, dummy_inv)).1.reserve ≠ 0 →
    (entries.getD j (dummy_alloc, dummy_inv)).1.reserve ≠ 0 →
    out.getD i 0 <
      fracOfNat (entries.getD i (dummy_alloc, dummy_inv)).1.token_allocation_cap →
    out.getD j 0 <
      fracOfNat (entries.getD j (dummy_alloc, dummy_inv)).1.token_allocation_cap →
    (entries.getD j (dummy_alloc, dummy_inv)).1.target_allocation_weight *
        out.getD i 0 +
      (entries.getD i (dummy_alloc, dummy_inv)).1.target_allocation_weight *
        tgts.getD j 0 ≤
    (entries.getD i (dummy_alloc, dummy_inv)).1.target_allocation_weight *
        out.getD j 0 +
      (entries.getD j (dummy_alloc, dummy_inv)).1.target_allocation_weight *
        tgts.getD i 0 +
      fuel * (entries.getD i (dummy_alloc, dummy_inv)).1.target_allocation_weight := by
  induction fuel with
  | zero =>
    intro tgts remT remW out hok hlen i j hi hj hri hrj hci hcj
    rw [alloc_loop_zero] at hok
    injection hok with h'
    subst h'
    omega
  | succ fuel ih =>
    intro tgts remT remW out hok hlen i j hi hj hri hrj hci hcj
    rw [alloc_loop_succ] at hok
    split at hok
    · rcases hp : alloc_pass remT remW (entries.zip tgts) remT remW false
          with e | r <;> rw [hp] at hok <;> simp only [Except.bind] at hok
      · exact Except.noConfusion hok
      · obtain rfl := alloc_pass_eq _ _ _ _ _ _ _ hp
        dsimp only at hok
        have hmidi : ((entries.zip tgts).map
              (fun et => pass_target remT remW et.1.1 et.2)).getD i 0 =
            pass_target remT remW (entries.getD i (dummy_alloc, dummy_inv)).1
              (tgts.getD i 0) := by
          rw [getD_map_lt _ _ i 0 ((dummy_alloc, dummy_inv), 0)
            (by rw [List.length_zip, hlen, Nat.min_self]; exact hi)]
          rw [getD_zip_lt entries tgts i (dummy_alloc, dummy_inv) 0 hi (hlen ▸ hi)]
        have hmidj : ((entries.zip tgts).map
              (fun et => pass_target remT remW et.1.1 et.2)).getD j 0 =
            pass_target remT remW (entries.getD j (dummy_alloc, dummy_inv)).1
              (tgts.getD j 0) := by
          rw [getD_map_lt _ _ j 0 ((dummy_alloc, dummy_inv), 0)
            (by rw [List.length_zip, hlen, Nat.min_self]; exact hj)]
          rw [getD_zip_lt entries tgts j (dummy_alloc, dummy_inv) 0 hj (hlen ▸ hj)]
        have hlen1 : ((entries.zip tgts).map
            (fun et => pass_target remT remW et.1.1 et.2)).length = entries.length := by
          simp [List.length_zip, hlen]
        have pair : (entries.getD j (dummy_alloc, dummy_inv)).1.target_allocation_weight *
              mulIntDiv remT
                (entries.getD i (dummy_alloc, dummy_inv)).1.target_allocation_weight
                remW ≤
            (entries.getD i (dummy_alloc, dummy_inv)).1.target_allocation_weight *
              mulIntDiv remT
                (entries.getD j (dummy_alloc, dummy_inv)).1.target_allocation_weight
                remW +
            (entries.getD i (dummy_alloc, dummy_inv)).1.target_allocation_weight :=
          pair_div_bound remT remW
            (entries.getD i (dummy_alloc, dummy_inv)).1.target_allocation_weight
            (entries.getD j (dummy_alloc, dummy_inv)).1.target_allocation_weight
        have e1 := Nat.mul_add
          (entries.getD i (dummy_alloc, dummy_inv)).1.target_allocation_weight
          (tgts.getD j 0)
          (mulIntDiv remT
            (entries.getD j (dummy_alloc, dummy_inv)).1.target_allocation_weight remW)
        have e2 := Nat.mul_add
          (entries.getD j (dummy_alloc, dummy_inv)).1.target_allocation_weight
          (tgts.getD i 0)
          (mulIntDiv remT
            (entries.getD i (dummy_alloc, dummy_inv)).1.target_allocation_weight remW)
        have e3 : (fuel + 1) *
              (entries.getD i (dummy_alloc, dummy_inv)).1.target_allocation_weight =
            fuel * (entries.getD i (dummy_alloc, dummy_inv)).1.target_allocation_weight +
              (entries.getD i (dummy_alloc, dummy_inv)).1.target_allocation_weight := by
          ring
        split at hok
        · have hmono_i := alloc_loop_mono entries fuel _ _ _ _ hok hlen1 i hi
          have hmono_j := alloc_loop_mono entries fuel _ _ _ _ hok hlen1 j hj
          rw [hmidi] at hmono_i
          rw [hmidj] at hmono_j
          have hpi := pass_target_below remT remW
            (entries.getD i (dummy_alloc, dummy_inv)).1 (tgts.getD i 0) hri
            (Nat.lt_of_le_of_lt hmono_i hci)
          have hpj := pass_target_below remT remW
            (entries.getD j (dummy_alloc, dummy_inv)).1 (tgts.getD j 0) hrj
            (Nat.lt_of_le_of_lt hmono_j hcj)
          have hIH := ih _ _ _ _ hok hlen1 i j hi hj hri hrj hci hcj
          rw [hmidi, hmidj, hpi.2, hpj.2] at hIH
          omega
        · injection hok with h'
          subst h'
          rw [hmidi] at hci
          rw [hmidj] at hcj
          have hpi := pass_target_below remT remW
            (entries.getD i (dummy_alloc, dummy_inv)).1 (tgts.getD i 0) hri hci
          have hpj := pass_target_below remT remW
            (entries.getD j (dummy_alloc, dummy_inv)).1 (tgts.getD j 0) hrj hcj
          rw [hmidi, hmidj, hpi.2, hpj.2]
          omega
    · injection hok with h'
      subst h'
      omega

theorem fracOfNat_pos (c : Nat) : 0 < fracOfNat c ↔ 0 < c := by
  unfold fracOfNat
  constructor
  · intro h
    rcases Nat.eq_zero_or_pos c with h0 | h0
    · subst h0
      simp at h
    · exact h0
  · intro h
    exact Nat.mul_pos h F_pos

theorem getD_map_zero {α : Type} (l : List α) : ∀ i : Nat,
    (l.map (fun _ => (0 : Nat))).getD i 0 = 0 := by
  induction l with
  | nil => intro i; rfl
  | cons a l ih =>
    intro i
    cases i with
    | zero => rfl
    | succ n =>
      rw [List.map_cons]
      exact ih n

/-- Starting from all-zero targets, the weight the loop distributes over is at
most the filtered total weight that seeds the denominator. -/
theorem active_weight_init :
    ∀ (slots : List VaultAllocation) (invs : List InvestedReserve),
    active_weight ((slots.zip invs).zip (slots.map (fun _ => (0 : Nat)))) ≤
      taw_list slots := by
  intro slots
  induction slots with
  | nil => intro invs; exact Nat.zero_le _
  | cons s ss ih =>
    intro invs
    cases invs with
    | nil => exact Nat.zero_le _
    | cons v vs =>
      rw [List.map_cons, List.zip_cons_cons, List.zip_cons_cons, active_weight]
      have htaw : taw_list (s :: ss) =
          (if (s.reserve != 0 && decide (0 < s.token_allocation_cap)) = true
            then s.target_allocation_weight else 0) + taw_list ss := by
        unfold taw_list
        by_cases hc : (s.reserve != 0 && decide (0 < s.token_allocation_cap)) = true
        · rw [List.filter_cons, if_pos hc, if_pos hc, List.map_cons, List.sum_cons]
        · rw [List.filter_cons, if_neg hc, if_neg hc, Nat.zero_add]
      rw [htaw]
      refine Nat.add_le_add ?_ (ih vs)
      by_cases hc : s.reserve ≠ 0 ∧ 0 < s.token_allocation_cap
      · have hb : (s.reserve != 0 && decide (0 < s.token_allocation_cap)) = true := by
          simp [hc.1, hc.2]
        have ha : s.reserve ≠ 0 ∧ 0 < fracOfNat s.token_allocation_cap :=
          ⟨hc.1, (fracOfNat_pos _).mpr hc.2⟩
        rw [if_pos ha, if_pos hb]
      · have ha : ¬(s.reserve ≠ 0 ∧ 0 < fracOfNat s.token_allocation_cap) := by
          intro hcon
          exact hc ⟨hcon.1, (fracOfNat_pos _).mp hcon.2⟩
        rw [if_neg ha]
        exact Nat.zero_le _

/-- The unallocated carve-out never exceeds the total. -/
theorem unallocated_target_le (v : VaultState) (T tw : Nat) :
    unallocated_target v T tw ≤ T := by
  unfold unallocated_target
  split
  · next h =>
    refine le_trans (Nat.min_le_left _ _) ?_
    unfold mulIntDiv
    calc T * v.unallocated_weight / (tw + v.unallocated_weight)
        ≤ T * (tw + v.unallocated_weight) / (tw + v.unallocated_weight) :=
          Nat.div_le_div_right (Nat.mul_le_mul_left _ (by omega))
      _ = T := Nat.mul_div_cancel T (by omega)
  · exact Nat.zero_le _

/-- The live targets written back by `refresh_target_allocations` sum to at most
the loop output's sum. -/
theorem masked_sum_le :
    ∀ (slots : List VaultAllocation) (tgts : List Nat),
    (((slots.zip tgts).map (fun p =>
          if p.1.reserve ≠ 0 then
            { p.1 with token_target_allocation_sf := p.2 }
          else p.1)).map
        (fun a => if a.reserve ≠ 0 then a.token_target_allocation_sf else 0)).sum ≤
      tgts.sum := by
  intro slots
  induction slots with
  | nil => intro tgts; exact Nat.zero_le _
  | cons s ss ih =>
    intro tgts
    cases tgts with
    | nil => exact Nat.zero_le _
    | cons t ts =>
      rw [List.zip_cons_cons, List.map_cons, List.map_cons, List.sum_cons,
        List.sum_cons]
      refine Nat.add_le_add ?_ (ih ts)
      by_cases hr : s.reserve ≠ 0
      · rw [if_pos hr]
        dsimp only
        rw [if_pos hr]
      · rw [if_neg hr, if_neg hr]
        exact Nat.zero_le _

/-- C3: after every successful `refresh_target_allocations` (with the invested
list positionally aligned with the allocation array, as on chain where both are
25-slot arrays), (a) every live slot's written target is at most its cap,
(b) the live targets plus the reserved unallocated target sum to at most the
total AUM, and (c) among slots ending strictly below their caps the targets are
proportional to the weights up to the loop's rounding slack of one fixed-point
quantum per unit weight per pass (at most `slots + 1` passes) — not exactly
proportional. -/
theorem C3_refresh_targets (v : VaultState) (invested : Invested) (v' : VaultState)
    (total_tokens : Nat)
    (hlen : invested.allocations.length = v.vault_allocation_strategy.length)
    (hok : refresh_target_allocations v invested = .ok v')
    (hT : compute_aum v invested.total = .ok total_tokens) :
    (∀ i, i < v.vault_allocation_strategy.length →
      (v'.vault_allocation_strategy.getD i dummy_alloc).reserve ≠ 0 →
      (v'.vault_allocation_strategy.getD i dummy_alloc).token_target_allocation_sf ≤
        fracOfNat
          (v'.vault_allocation_strategy.getD i dummy_alloc).token_allocation_cap) ∧
    ((v'.vault_allocation_strategy.map
        (fun a => if a.reserve ≠ 0 then a.token_target_allocation_sf else 0)).sum +
      unallocated_target v total_tokens (total_alloc_weight v) ≤ total_tokens) ∧
    (∀ i j, i < v.vault_allocation_strategy.length →
      j < v.vault_allocation_strategy.length →
      (v'.vault_allocation_strategy.getD i dummy_alloc).reserve ≠ 0 →
      (v'.vault_allocation_strategy.getD j dummy_alloc).reserve ≠ 0 →
      (v'.vault_allocation_strategy.getD i dummy_alloc).token_target_allocation_sf <
        fracOfNat
          (v'.vault_allocation_strategy.getD i dummy_alloc).token_allocation_cap →
      (v'.vault_allocation_strategy.getD j dummy_alloc).token_target_allocation_sf <
        fracOfNat
          (v'.vault_allocation_strategy.getD j dummy_alloc).token_allocation_cap →
      (v'.vault_allocation_strategy.getD j dummy_alloc).target_allocation_weight *
        (v'.vault_allocation_strategy.getD i dummy_alloc).token_target_allocation_sf ≤
      (v'.vault_allocation_strategy.getD i dummy_alloc).target_allocation_weight *
        (v'.vault_allocation_strategy.getD j dummy_alloc).token_target_allocation_sf +
      (v.vault_allocation_strategy.length + 1) *
        (v'.vault_allocation_strategy.getD i dummy_alloc).target_allocation_weight) := by
  unfold refresh_target_allocations at hok
  rw [hT] at hok
  simp only [Except.bind] at hok
  rcases hloop : alloc_loop (v.vault_allocation_strategy.zip invested.allocations)
      (v.vault_allocation_strategy.length + 1)
      (v.vault_allocation_strategy.map fun _ => 0)
      (total_tokens - unallocated_target v total_tokens (total_alloc_weight v))
      (total_alloc_weight v) with e | out <;>
    rw [hloop] at hok <;> simp only [Except.bind] at hok
  · exact Except.noConfusion hok
  injection hok with h'
  subst h'
  dsimp only
  have hentlen : (v.vault_allocation_strategy.zip invested.allocations).length =
      v.vault_allocation_strategy.length := by
    simp [List.length_zip, hlen]
  have hlenz : (v.vault_allocation_strategy.map (fun _ => (0 : Nat))).length =
      (v.vault_allocation_strategy.zip invested.allocations).length := by
    simp [List.length_zip, hlen]
  have houtlen := alloc_loop_length _ _ _ _ _ _ hloop hlenz
  have htgts0 := getD_map_zero v.vault_allocation_strategy
  have hent : ∀ i, i < v.vault_allocation_strategy.length →
      (v.vault_allocation_strategy.zip invested.allocations).getD i
          (dummy_alloc, dummy_inv) =
        (v.vault_allocation_strategy.getD i dummy_alloc,
         invested.allocations.getD i dummy_inv) := by
    intro i hi
    exact getD_zip_lt _ _ i _ _ hi (by omega)
  have hfin : ∀ i, i < v.vault_allocation_strategy.length →
      ((v.vault_allocation_strategy.zip out).map (fun p =>
          if p.1.reserve ≠ 0 then
            { p.1 with token_target_allocation_sf := p.2 }
          else p.1)).getD i dummy_alloc =
        (if (v.vault_allocation_strategy.getD i dummy_alloc).reserve ≠ 0 then
          { v.vault_allocation_strategy.getD i dummy_alloc with
            token_target_allocation_sf := out.getD i 0 }
        else v.vault_allocation_strategy.getD i dummy_alloc) := by
    intro i hi
    rw [getD_map_lt _ _ i dummy_alloc (dummy_alloc, 0)
      (by rw [List.length_zip]; omega)]
    rw [getD_zip_lt _ _ i dummy_alloc 0 hi (by omega)]
  refine ⟨?_, ?_, ?_⟩
  · intro i hi hlive
    rw [hfin i hi] at hlive ⊢
    have hres : (if (v.vault_allocation_strategy.getD i dummy_alloc).reserve ≠ 0 then
          { v.vault_allocation_strategy.getD i dummy_alloc with
            token_target_allocation_sf := out.getD i 0 }
        else v.vault_allocation_strategy.getD i dummy_alloc).reserve =
        (v.vault_allocation_strategy.getD i dummy_alloc).reserve := by
      split <;> rfl
    rw [hres] at hlive
    rw [if_pos hlive]
    dsimp only
    have hc := alloc_loop_caps _ _ _ _ _ _ hloop hlenz
      (by
        intro k hk
        rw [htgts0 k]
        exact Nat.zero_le _) i (by omega)
    rw [hent i hi] at hc
    exact hc
  · have hsum := alloc_loop_sum _ _ _ _ _ _ hloop hlenz
      (active_weight_init v.vault_allocation_strategy invested.allocations)
    have hmask := masked_sum_le v.vault_allocation_strategy out
    have htz : (v.vault_allocation_strategy.map (fun _ => (0 : Nat))).sum = 0 := by
      simp
    have hun := unallocated_target_le v total_tokens (total_alloc_weight v)
    have hkey : (((v.vault_allocation_strategy.zip out).map (fun p =>
          if p.1.reserve ≠ 0 then
            { p.1 with token_target_allocation_sf := p.2 }
          else p.1)).map
        (fun a => if a.reserve ≠ 0 then a.token_target_allocation_sf else 0)).sum +
        unallocated_target v total_tokens (total_alloc_weight v) ≤ total_tokens := by
      omega
    exact hkey
  · intro i j hi hj hlivei hlivej hlti hltj
    rw [hfin i hi] at hlivei hlti ⊢
    rw [hfin j hj] at hlivej hltj ⊢
    have hresi : (if (v.vault_allocation_strategy.getD i dummy_alloc).reserve ≠ 0 then
          { v.vault_allocation_strategy.getD i dummy_alloc with
            token_target_allocation_sf := out.getD i 0 }
        else v.vault_allocation_strategy.getD i dummy_alloc).reserve =
        (v.vault_allocation_strategy.getD i dummy_alloc).reserve := by
      split <;> rfl
    have hresj : (if (v.vault_allocation_strategy.getD j dummy_alloc).reserve ≠ 0 then
          { v.vault_allocation_strategy.getD j dummy_alloc with
            token_target_allocation_sf := out.getD j 0 }
        else v.vault_allocation_strategy.getD j dummy_alloc).reserve =
        (v.vault_allocation_strategy.getD j dummy_alloc).reserve := by
      split <;> rfl
    rw [hresi] at hlivei
    rw [hresj] at hlivej
    rw [if_pos hlivei] at hlti ⊢
    rw [if_pos hlivej] at hltj ⊢
    dsimp only at hlti hltj ⊢
    have hri : ((v.vault_allocation_strategy.zip invested.allocations).getD i
        (dummy_alloc, dummy_inv)).1.reserve ≠ 0 := by
      rw [hent i hi]
      exact hlivei
    have hrj : ((v.vault_allocation_strategy.zip invested.allocations).getD j
        (dummy_alloc, dummy_inv)).1.reserve ≠ 0 := by
      rw [hent j hj]
      exact hlivej
    have hci : out.getD i 0 < fracOfNat
        ((v.vault_allocation_strategy.zip invested.allocations).getD i
          (dummy_alloc, dummy_inv)).1.token_allocation_cap := by
      rw [hent i hi]
      exact hlti
    have hcj : out.getD j 0 < fracOfNat
        ((v.vault_allocation_strategy.zip invested.allocations).getD j
          (dummy_alloc, dummy_inv)).1.token_allocation_cap := by
      rw [hent j hj]
      exact hltj
    have hpair := alloc_loop_pair _ _ _ _ _ _ hloop hlenz i j
      (by omega) (by omega) hri hrj hci hcj
    rw [hent i hi, hent j hj] at hpair
    dsimp only at hpair
    rw [htgts0 i, htgts0 j] at hpair
    simp only [Nat.mul_zero, Nat.add_zero] at hpair
    exact hpair

/-- A live slot with weight 1 and a cap far above the AUM. -/
def c3AllocA : VaultAllocation :=
  { reserve := 1, target_allocation_weight := 1, token_allocation_cap := 1000,
    ctoken_allocation := 0, last_invest_slot := 0, token_target_allocation_sf := 0 }

/-- A live slot with weight 2 and a cap far above the AUM. -/
def c3AllocB : VaultAllocation :=
  { reserve := 2, target_allocation_weight := 2, token_allocation_cap := 1000,
    ctoken_allocation := 0, last_invest_slot := 0, token_target_allocation_sf := 0 }

/-- A vault holding 5 tokens split over two uncapped-in-practice reserves with
weights 1 and 2. -/
def c3Vault : VaultState :=
  { baseVault with
    token_available := 5,
    vault_allocation_strategy := [c3AllocA, c3AllocB] }

/-- The matching invested structure (nothing invested yet). -/
def c3Invested : Invested :=
  { allocations := [⟨1, 0, 0, 0⟩, ⟨2, 0, 0, 0⟩], total := 0 }

/-- The refreshed vault: one pass distributes `⌊5F/3⌋` and `⌊10F/3⌋` fixed-point
units (`F = 2^60`), reaching no cap. -/
def c3After : VaultState :=
  { c3Vault with
    vault_allocation_strategy :=
      [{ c3AllocA with token_target_allocation_sf := (5 * F - 2) / 3 },
       { c3AllocB with token_target_allocation_sf := (10 * F - 1) / 3 }] }

/-- C3 counterexample: refreshing a 5-token vault over two live reserves with
weights 1 and 2 and caps far above the AUM succeeds with both targets strictly
below their caps, yet `2 * target_A ≠ 1 * target_B` — the per-slot flooring of
`loop_total * weight / loop_weight` at the 2⁻⁶⁰ grid breaks exact
proportionality (the two products differ by one quantum). -/
theorem C3_counterexample :
    refresh_target_allocations c3Vault c3Invested = .ok c3After ∧
    (c3After.vault_allocation_strategy.getD 0 dummy_alloc).reserve ≠ 0 ∧
    (c3After.vault_allocation_strategy.getD 1 dummy_alloc).reserve ≠ 0 ∧
    (c3After.vault_allocation_strategy.getD 0 dummy_alloc).token_target_allocation_sf <
      fracOfNat
        (c3After.vault_allocation_strategy.getD 0 dummy_alloc).token_allocation_cap ∧
    (c3After.vault_allocation_strategy.getD 1 dummy_alloc).token_target_allocation_sf <
      fracOfNat
        (c3After.vault_allocation_strategy.getD 1 dummy_alloc).token_allocation_cap ∧
    (c3After.vault_allocation_strategy.getD 1 dummy_alloc).target_allocation_weight *
        (c3After.vault_allocation_strategy.getD 0 dummy_alloc).token_target_allocation_sf ≠
      (c3After.vault_allocation_strategy.getD 0 dummy_alloc).target_allocation_weight *
        (c3After.vault_allocation_strategy.getD 1 dummy_alloc).token_target_allocation_sf := by
  refine ⟨rfl, by decide, by decide, by decide, by decide, by decide⟩

/-- C3 witness: the amended guarantee instantiated at the concrete two-reserve
vault — the written live targets plus the unallocated carve-out stay within the
5-token AUM (in fixed-point units). -/
theorem C3_witness :
    (c3After.vault_allocation_strategy.map
        (fun a => if a.reserve ≠ 0 then a.token_target_allocation_sf else 0)).sum +
      unallocated_target c3Vault (5 * F) (total_alloc_weight c3Vault) ≤ 5 * F :=
  (C3_refresh_targets c3Vault c3Invested c3After (5 * F) rfl rfl rfl).2.1

/-- C8 witness: a vault with one live allocation (weight and cap positive) and a
crank fee of 7 aborts on a deposit of 6 and does not abort on a deposit of 7. -/
theorem C8_witness :
    deposit c8Vault [⟨1, false, F⟩] 6 3 2 = .error .arithmeticAbort ∧
    deposit c8Vault [⟨1, false, F⟩] 7 3 2 ≠ .error .arithmeticAbort :=
  ⟨(C8_deposit_underflow c8Vault [⟨1, false, F⟩] 6 3 2).mpr (by decide),
   fun hcon => absurd ((C8_deposit_underflow c8Vault [⟨1, false, F⟩] 7 3 2).mp hcon)
     (by decide)⟩

end KVault
